import Mathlib

/-!
# geopdes.h: quadrature geometry and function-space evaluation views

A shallow embedding of `geopdes_base/inst/include/geopdes.h`.

Conventions of the embedding.

* `octave_idx_type` is a signed machine integer; indices and shape parameters
  are `Int`.  Offsets are computed in `Int` (for in-range indices every
  partial sum is bounded by the buffer size, so no wrap-around occurs).
* A `double` is a finite value, held exactly as a rational, one of the two
  infinities, or the not-a-number value `octave_NaN`.  Arithmetic follows
  IEEE 754 on infinities and not-a-number (`Inf * 0` and `Inf - Inf` are
  not-a-number) and is exact on finite values: rounding and overflow of
  finite results are outside the embedding, and no theorem below depends on
  the exact value of a rounded sum.
* The header never checks an index: `Matrix::operator ()`, `Array<T>::operator ()`
  and raw pointer subscripts read the flat storage at the computed offset.  A
  read outside the storage has no defined result in C++; the embedding returns
  `none` there, and `some v` for a read that hits the storage.
* `Octave_map` is a record of optional named fields.  `contents (k)(0)` on a
  field that is not there indexes an empty cell, which again has no defined
  result: the constructors return `none`.
-/

namespace Geopdes

/-! ## Doubles -/

/-- A `double`: a finite value, an infinity or not-a-number. -/
inductive Double where
  | val (q : ℚ)
  | posInf
  | negInf
  | NaN
  deriving DecidableEq

/-- The constant `octave_NaN` of `lo-ieee.h`. -/
def octave_NaN : Double := Double.NaN

namespace Double

/-- Addition of doubles, `a + b`: IEEE 754 on infinities and not-a-number
(`Inf + -Inf` is not-a-number), exact on finite values (no rounding, no
overflow). -/
def add : Double → Double → Double
  | val a, val b => val (a + b)
  | val _, posInf => posInf
  | val _, negInf => negInf
  | posInf, val _ => posInf
  | negInf, val _ => negInf
  | posInf, posInf => posInf
  | negInf, negInf => negInf
  | _, _ => NaN

/-- Multiplication of doubles, `a * b`: IEEE 754 on infinities and
not-a-number (`Inf * 0` is not-a-number), exact on finite values (no rounding,
no overflow). -/
def mul : Double → Double → Double
  | val a, val b => val (a * b)
  | val a, posInf => if a = 0 then NaN else if 0 < a then posInf else negInf
  | val a, negInf => if a = 0 then NaN else if 0 < a then negInf else posInf
  | posInf, val b => if b = 0 then NaN else if 0 < b then posInf else negInf
  | negInf, val b => if b = 0 then NaN else if 0 < b then negInf else posInf
  | posInf, posInf => posInf
  | posInf, negInf => negInf
  | negInf, posInf => negInf
  | negInf, negInf => posInf
  | _, _ => NaN

/-- The function `std::abs` on doubles. -/
def abs : Double → Double
  | val a => val |a|
  | posInf => posInf
  | negInf => posInf
  | NaN => NaN

/-- A double that is strictly below zero (`a < 0`; false for not-a-number). -/
def isNeg : Double → Prop
  | val a => a < 0
  | posInf => False
  | negInf => True
  | NaN => False

instance : DecidablePred isNeg := fun d =>
  match d with
  | val a => inferInstanceAs (Decidable (a < 0))
  | posInf => isFalse (fun h => h)
  | negInf => isTrue trivial
  | NaN => isFalse (fun h => h)

instance : Add Double := ⟨add⟩
instance : Mul Double := ⟨mul⟩
instance : OfNat Double 0 := ⟨val 0⟩

end Double

/-! ## Flat storage -/

/-- Read of `data[off]` for a signed offset: `none` outside the storage. -/
def readAt {α : Type} (data : List α) (off : Int) : Option α :=
  if 0 ≤ off then data[off.toNat]? else none

/-- Octave's `Matrix` (a liboctave type, declared outside this header): a
two-dimensional array of doubles stored column by column. -/
structure Matrix where
  rows : Nat
  cols : Nat
  data : List Double
  deriving DecidableEq

/-- The unchecked `Matrix::operator () (i, j)`, that is `data[i + rows * j]`. -/
def Matrix.elem (a : Matrix) (i j : Int) : Option Double :=
  readAt a.data (i + (a.rows : Int) * j)

/-- Octave's `NDArray` and `Array<T>` (liboctave types, declared outside this
header): the dimension vector and the data, first index fastest. -/
structure NDArray (α : Type) where
  dims : List Nat
  data : List α

/-- The first dimension, `dim1 ()` (and `rows ()`). -/
def NDArray.dim1 {α : Type} (a : NDArray α) : Nat := a.dims.getD 0 0

/-- The second dimension, `dim2 ()`. -/
def NDArray.dim2 {α : Type} (a : NDArray α) : Nat := a.dims.getD 1 0

/-- The unchecked one-index `operator () (n)`. -/
def NDArray.elem1 {α : Type} (a : NDArray α) (n : Int) : Option α :=
  readAt a.data n

/-- The unchecked two-index `operator () (i, j)`, that is `data[i + dim1 * j]`. -/
def NDArray.elem2 {α : Type} (a : NDArray α) (i j : Int) : Option α :=
  readAt a.data (i + (a.dim1 : Int) * j)

/-- The unchecked three-index `operator () (i, j, k)`, that is
`data[i + dim1 * (j + dim2 * k)]`. -/
def NDArray.elem3 {α : Type} (a : NDArray α) (i j k : Int) : Option α :=
  readAt a.data (i + (a.dim1 : Int) * (j + (a.dim2 : Int) * k))

/-! ## Geometry -/

/-- The `Octave_map` handed to `geopdes_mesh` and `geopdes_mesh_normal`, with
the fields the constructors ask for; `none` is a field that is not there. -/
structure MshMap where
  nqn : Option Int
  nel : Option Int
  quad_nodes : Option (NDArray Double)
  jacdet : Option Matrix
  quad_weights : Option Matrix
  normal : Option (NDArray Double)

/-- Data members of the abstract class `geopdes_mesh_base`. -/
structure geopdes_mesh_base where
  nqn_rep : Int
  nel_rep : Int
  ndir_rep : Int

namespace geopdes_mesh_base

/-- Accessor `nqn ()`. -/
def nqn (b : geopdes_mesh_base) : Int := b.nqn_rep

/-- Accessor `nel ()`. -/
def nel (b : geopdes_mesh_base) : Int := b.nel_rep

/-- Accessor `ndir ()`. -/
def ndir (b : geopdes_mesh_base) : Int := b.ndir_rep

/-- The loop of `area`: `a += std::abs (jacdet (iqn, iel) * weights (iqn, iel))`
for `iqn = 0, ..., nqn () - 1`, over the virtual `jacdet` and `weights`. -/
def area (b : geopdes_mesh_base) (jacdet weights : Int → Int → Option Double)
    (iel : Int) : Option Double :=
  (List.range b.nqn.toNat).foldlM
    (fun (a : Double) (iqn : Nat) => do
      let j ← jacdet (iqn : Int) iel
      let w ← weights (iqn : Int) iel
      pure (a + Double.abs (j * w)))
    (0 : Double)

/-- Member `volume`, which returns `area (iel)`. -/
def volume (b : geopdes_mesh_base) (jacdet weights : Int → Int → Option Double)
    (iel : Int) : Option Double :=
  b.area jacdet weights iel

end geopdes_mesh_base

/-- The class `geopdes_mesh`. -/
structure geopdes_mesh extends geopdes_mesh_base where
  msh : MshMap
  jacdet_rep : Matrix
  weights_rep : Matrix

namespace geopdes_mesh

/-- The constructor `geopdes_mesh (refmsh)`. -/
def construct (refmsh : MshMap) : Option geopdes_mesh := do
  let nqn ← refmsh.nqn
  let nel ← refmsh.nel
  let quad_nodes ← refmsh.quad_nodes
  let jacdet ← refmsh.jacdet
  let quad_weights ← refmsh.quad_weights
  pure { nqn_rep := nqn, nel_rep := nel, ndir_rep := (quad_nodes.dim1 : Int),
         msh := refmsh, jacdet_rep := jacdet, weights_rep := quad_weights }

/-- Accessor `jacdet (inode, iel)`. -/
def jacdet (m : geopdes_mesh) (inode iel : Int) : Option Double :=
  m.jacdet_rep.elem inode iel

/-- Accessor `weights (inode, iel)`. -/
def weights (m : geopdes_mesh) (inode iel : Int) : Option Double :=
  m.weights_rep.elem inode iel

/-- The inherited `area`, dispatching to this class's `jacdet` and `weights`. -/
def area (m : geopdes_mesh) (iel : Int) : Option Double :=
  m.togeopdes_mesh_base.area m.jacdet m.weights iel

/-- The inherited `volume`. -/
def volume (m : geopdes_mesh) (iel : Int) : Option Double :=
  m.togeopdes_mesh_base.volume m.jacdet m.weights iel

end geopdes_mesh

/-- The class `geopdes_mesh_normal`. -/
structure geopdes_mesh_normal extends geopdes_mesh where
  normal_rep : NDArray Double

namespace geopdes_mesh_normal

/-- The constructor `geopdes_mesh_normal (refmsh)`. -/
def construct (refmsh : MshMap) : Option geopdes_mesh_normal := do
  let base ← geopdes_mesh.construct refmsh
  let normal ← base.msh.normal
  pure { togeopdes_mesh := base, normal_rep := normal }

/-- Accessor `normal (i, inode, iel)`. -/
def normal (m : geopdes_mesh_normal) (i inode iel : Int) : Option Double :=
  m.normal_rep.elem3 i inode iel

end geopdes_mesh_normal

/-! ## Function spaces -/

/-- The `Octave_map` handed to `geopdes_space`, with the fields the
constructor asks for; `none` is a field that is not there.  The integer
fields hold integers, on which `int_value ()` and the conversion to
`Array<octave_idx_type>` are the identity. -/
structure SpMap where
  ndof : Option Int
  nsh_max : Option Int
  ncomp : Option Int
  nsh : Option (NDArray Int)
  connectivity : Option (NDArray Int)
  shape_functions : Option (NDArray Double)
  shape_function_gradients : Option (NDArray Double)
  shape_function_curls : Option (NDArray Double)
  shape_function_divs : Option (NDArray Double)

/-- Data members of the abstract class `geopdes_space_base`. -/
structure geopdes_space_base where
  ndof_rep : Int
  nsh_max_rep : Int
  ncomp_rep : Int

namespace geopdes_space_base

/-- Accessor `ndof ()`. -/
def ndof (b : geopdes_space_base) : Int := b.ndof_rep

/-- Accessor `nsh_max ()`. -/
def nsh_max (b : geopdes_space_base) : Int := b.nsh_max_rep

/-- Accessor `ncomp ()`. -/
def ncomp (b : geopdes_space_base) : Int := b.ncomp_rep

/-- The default body of the virtual `shape_function_gradients (i, j, k, m, n)`. -/
def shape_function_gradients (_b : geopdes_space_base) (_i _j _k _m _n : Int) :
    Option Double :=
  some octave_NaN

/-- The default body of the virtual `shape_function_curls (i, j, k, m)`. -/
def shape_function_curls (_b : geopdes_space_base) (_i _j _k _m : Int) : Option Double :=
  some octave_NaN

/-- The default body of the virtual `shape_function_divs (i, j, k, m)`. -/
def shape_function_divs (_b : geopdes_space_base) (_i _j _k _m : Int) : Option Double :=
  some octave_NaN

end geopdes_space_base

/-- The class `geopdes_space`.  A `double *` member is the storage it points
to; `NULL` is `none`. -/
structure geopdes_space extends geopdes_space_base, geopdes_mesh where
  sp : SpMap
  shape_functions_rep : List Double
  shape_function_gradients_rep : Option (List Double)
  shape_function_curls_rep : Option (List Double)
  shape_function_divs_rep : Option (List Double)
  nsh_rep : NDArray Int
  connectivity_rep : NDArray Int

namespace geopdes_space

/-- The constructor `geopdes_space (refsp, msh)`. -/
def construct (refsp : SpMap) (msh : geopdes_mesh) : Option geopdes_space := do
  let ndof ← refsp.ndof
  let nsh_max ← refsp.nsh_max
  let ncomp ← refsp.ncomp
  let nsh ← refsp.nsh
  let connectivity ← refsp.connectivity
  let shape_functions ← refsp.shape_functions
  let shape_function_gradients :=
    match refsp.shape_function_gradients with
    | some a => some a.data
    | none => none
  let shape_function_curls :=
    match refsp.shape_function_curls with
    | some a => some a.data
    | none => none
  let shape_function_divs :=
    match refsp.shape_function_divs with
    | some a => some a.data
    | none => none
  pure { togeopdes_mesh := msh, ndof_rep := ndof, nsh_max_rep := nsh_max, ncomp_rep := ncomp,
         sp := refsp, nsh_rep := nsh, connectivity_rep := connectivity,
         shape_functions_rep := shape_functions.data,
         shape_function_gradients_rep := shape_function_gradients,
         shape_function_curls_rep := shape_function_curls,
         shape_function_divs_rep := shape_function_divs }

/-- Accessor `nsh (iel)`. -/
def nsh (s : geopdes_space) (iel : Int) : Option Int :=
  s.nsh_rep.elem1 iel

/-- Accessor `connectivity (ish, iel)`. -/
def connectivity (s : geopdes_space) (ish iel : Int) : Option Int :=
  s.connectivity_rep.elem2 ish iel

/-- Accessor `shape_functions (i, j, k, m)`. -/
def shape_functions (s : geopdes_space) (i j k m : Int) : Option Double :=
  readAt s.shape_functions_rep (i + s.ncomp * (j + s.nqn * (k + s.nsh_max * m)))

/-- Accessor `shape_function_curls (i, j, k, m)`, the four-index overload. -/
def shape_function_curls (s : geopdes_space) (i j k m : Int) : Option Double :=
  match s.shape_function_curls_rep with
  | some rep => readAt rep (i + s.ncomp * (j + s.nqn * (k + s.nsh_max * m)))
  | none => some octave_NaN

/-- Accessor `shape_function_curls (i, j, k)`, the three-index overload. -/
def shape_function_curls_3 (s : geopdes_space) (i j k : Int) : Option Double :=
  match s.shape_function_curls_rep with
  | some rep => readAt rep (i + s.nqn * (j + s.nsh_max * k))
  | none => some octave_NaN

/-- Accessor `shape_function_divs (j, k, m)`. -/
def shape_function_divs (s : geopdes_space) (j k m : Int) : Option Double :=
  match s.shape_function_divs_rep with
  | some rep => readAt rep (j + s.nqn * (k + s.nsh_max * m))
  | none => some octave_NaN

/-- Accessor `shape_function_gradients (i, j, k, m, n)`. -/
def shape_function_gradients (s : geopdes_space) (i j k m n : Int) : Option Double :=
  match s.shape_function_gradients_rep with
  | some rep =>
    readAt rep (i + s.ncomp * (j + s.ndir * (k + s.nqn * (m + s.nsh_max * n))))
  | none => some octave_NaN

end geopdes_space

/-- The linear offset of the specification for extents `(E0, E1, ..., Ek)` and
multi-index `(i0, i1, ..., ik)`:
`i0 + E0 * (i1 + E1 * (i2 + E2 * ( ... + E(k-1) * ik)))`. -/
def spec_offset : List Int → List Int → Int
  | _, [] => 0
  | [], i :: _ => i
  | E :: Es, i :: is => i + E * spec_offset Es is

/-- The measure of an element in the words of the specification: the sum over
all nodes of `|jacobian_determinant (node, element)| * quadrature_weight (node, element)`. -/
def measure_spec (m : geopdes_mesh) (element : Int) : Option Double :=
  (List.range m.nqn.toNat).foldlM
    (fun (a : Double) (node : Nat) => do
      let j ← m.jacdet (node : Int) element
      let w ← m.weights (node : Int) element
      pure (a + Double.abs j * w))
    (0 : Double)

/-- The 1-D mesh of the specification's scenario: `nel = 2`, `nqn = 2`,
`jacdet = 0.5` everywhere, weights `1` everywhere. -/
def scenarioMsh : MshMap :=
  { nqn := some 2, nel := some 2,
    quad_nodes := some { dims := [1, 2, 2], data := [.val 0, .val 1, .val 0, .val 1] },
    jacdet := some { rows := 2, cols := 2, data := [.val (1/2), .val (1/2), .val (1/2), .val (1/2)] },
    quad_weights := some { rows := 2, cols := 2, data := [.val 1, .val 1, .val 1, .val 1] },
    normal := none }

/-- A one-element, one-node mesh with determinant `1` and weight `-1`. -/
def negWeightMsh : MshMap :=
  { nqn := some 1, nel := some 1,
    quad_nodes := some { dims := [1, 1, 1], data := [.val 0] },
    jacdet := some { rows := 1, cols := 1, data := [.val 1] },
    quad_weights := some { rows := 1, cols := 1, data := [.val (-1)] },
    normal := none }

/-- Storage holding the doubles `base, base + 1, ..., base + n - 1`. -/
def ramp (base n : Nat) : List Double :=
  (List.range n).map (fun t => Double.val ((base + t : Nat) : ℚ))

/-- A mesh map with `nqn = 2`, `nel = 2` and two directions. -/
def sampleMsh : MshMap :=
  { nqn := some 2, nel := some 2,
    quad_nodes := some { dims := [2, 2, 2], data := ramp 0 8 },
    jacdet := some { rows := 2, cols := 2, data := ramp 10 4 },
    quad_weights := some { rows := 2, cols := 2, data := ramp 20 4 },
    normal := some { dims := [2, 2, 2], data := ramp 30 8 } }

/-- A space map over `sampleMsh` with `ncomp = 2`, `nsh_max = 2`, `ndof = 4`;
the flags say which of gradients, curls and divergences are supplied. -/
def sampleSp (grad curl div : Bool) : SpMap :=
  { ndof := some 4, nsh_max := some 2, ncomp := some 2,
    nsh := some { dims := [2, 1], data := [2, 2] },
    connectivity := some { dims := [2, 2], data := [0, 1, 2, 3] },
    shape_functions := some { dims := [2, 2, 2, 2], data := ramp 100 16 },
    shape_function_gradients :=
      if grad then some { dims := [2, 2, 2, 2, 2], data := ramp 200 32 } else none,
    shape_function_curls :=
      if curl then some { dims := [2, 2, 2, 2], data := ramp 300 16 } else none,
    shape_function_divs :=
      if div then some { dims := [2, 2, 2], data := ramp 400 8 } else none }

/-- A matrix of the given shape, with one stored entry per position. -/
def Matrix.hasShape (a : Matrix) (r c : Int) : Prop :=
  (a.rows : Int) = r ∧ (a.cols : Int) = c ∧ a.data.length = a.rows * a.cols

instance (a : Matrix) (r c : Int) : Decidable (a.hasShape r c) := by
  unfold Matrix.hasShape; infer_instance

/-- An array of the given extents, with one stored entry per position. -/
def NDArray.hasDims {α : Type} (a : NDArray α) (ds : List Int) : Prop :=
  a.dims.map (fun d => (d : Int)) = ds ∧ a.data.length = a.dims.prod

instance {α : Type} (a : NDArray α) (ds : List Int) : Decidable (a.hasDims ds) := by
  unfold NDArray.hasDims; infer_instance

/-- A mesh map with a single element and a single node. -/
def oneElMsh : MshMap :=
  { nqn := some 1, nel := some 1,
    quad_nodes := some { dims := [1, 1, 1], data := [.val 0] },
    jacdet := some { rows := 1, cols := 1, data := [.val 1] },
    quad_weights := some { rows := 1, cols := 1, data := [.val 2] },
    normal := none }

/-- The scalar space of the specification's scenario: `ncomp = 1`,
`nsh_max = 2`, `nel = 1`, `connectivity = [[3], [7]]`, with `nsh = [nsh0]`
(`nsh0 = 2` in the scenario). -/
def scenarioSp (nsh0 : Int) : SpMap :=
  { ndof := some 8, nsh_max := some 2, ncomp := some 1,
    nsh := some { dims := [1, 1], data := [nsh0] },
    connectivity := some { dims := [2, 1], data := [3, 7] },
    shape_functions := some { dims := [1, 1, 2, 1], data := [.val 1, .val 0] },
    shape_function_gradients := none,
    shape_function_curls := none,
    shape_function_divs := none }

/-- A surface geometry whose matrices have shape `nqn x nel` and whose normal
tensor has extents `[ndir][nqn][nel]`. -/
def geopdes_mesh_normal.documented (m : geopdes_mesh_normal) : Prop :=
  m.jacdet_rep.hasShape m.nqn m.nel ∧ m.weights_rep.hasShape m.nqn m.nel ∧
  m.normal_rep.hasDims [m.ndir, m.nqn, m.nel]

instance (m : geopdes_mesh_normal) : Decidable m.documented := by
  unfold geopdes_mesh_normal.documented; infer_instance

/-- A space whose arrays and buffers have the documented sizes: `nsh` of
length `nel`, `connectivity` of extents `[nsh_max][nel]`, `shape_functions`
with `ncomp * nqn * nsh_max * nel` entries and, for each optional tensor that
is there, gradients with `ncomp * ndir * nqn * nsh_max * nel`, curls with
`ncomp * nqn * nsh_max * nel` and divergences with `nqn * nsh_max * nel`
entries. -/
def geopdes_space.documented (s : geopdes_space) : Prop :=
  (s.nsh_rep.data.length : Int) = s.nel ∧
  s.connectivity_rep.hasDims [s.nsh_max, s.nel] ∧
  (s.shape_functions_rep.length : Int) = s.ncomp * s.nqn * s.nsh_max * s.nel ∧
  (∀ rep ∈ s.shape_function_gradients_rep,
    (rep.length : Int) = s.ncomp * s.ndir * s.nqn * s.nsh_max * s.nel) ∧
  (∀ rep ∈ s.shape_function_curls_rep,
    (rep.length : Int) = s.ncomp * s.nqn * s.nsh_max * s.nel) ∧
  (∀ rep ∈ s.shape_function_divs_rep, (rep.length : Int) = s.nqn * s.nsh_max * s.nel)

instance (s : geopdes_space) : Decidable s.documented := by
  unfold geopdes_space.documented; infer_instance

/-- A space map over `sampleMsh` declaring `ncomp = 2`, `nsh_max = 2` whose
`shape_functions` tensor has extents `[3][1][1][1]`. -/
def mismatchedSp : SpMap :=
  { ndof := some 4, nsh_max := some 2, ncomp := some 2,
    nsh := some { dims := [2, 1], data := [2, 2] },
    connectivity := some { dims := [2, 2], data := [0, 1, 2, 3] },
    shape_functions := some { dims := [3, 1, 1, 1], data := ramp 100 3 },
    shape_function_gradients := none,
    shape_function_curls := none,
    shape_function_divs := none }

/-- A space map over `sampleMsh` declaring `ndof = 4` whose connectivity holds
the entry `9` at the active slot `(1, 1)`. -/
def largeDofSp : SpMap :=
  { ndof := some 4, nsh_max := some 2, ncomp := some 2,
    nsh := some { dims := [2, 1], data := [2, 2] },
    connectivity := some { dims := [2, 2], data := [0, 1, 2, 9] },
    shape_functions := some { dims := [2, 2, 2, 2], data := ramp 100 16 },
    shape_function_gradients := none,
    shape_function_curls := none,
    shape_function_divs := none }

/-- The surface geometry constructed from `sampleMsh`. -/
def sampleSurface : geopdes_mesh_normal :=
  (geopdes_mesh_normal.construct sampleMsh).get rfl

/-- The geometry constructed from `sampleMsh`. -/
def sampleGeometry : geopdes_mesh :=
  (geopdes_mesh.construct sampleMsh).get rfl

/-- The space constructed from `sampleSp` with all optional tensors supplied,
over `sampleGeometry`. -/
def sampleSpace : geopdes_space :=
  (geopdes_space.construct (sampleSp true true true) sampleGeometry).get rfl

/-- The sum of the quadrature weights of an element, added up node by node
in the order of the loop of `area`. -/
def weights_sum (m : geopdes_mesh) (element : Int) : Option Double :=
  (List.range m.nqn.toNat).foldlM
    (fun (a : Double) (node : Nat) => do
      let w ← m.weights (node : Int) element
      pure (a + w))
    (0 : Double)

/-- A one-element mesh with two nodes, determinant `1` at both and weights
`2` and `-1`. -/
def mixedSignMsh : MshMap :=
  { nqn := some 2, nel := some 1,
    quad_nodes := some { dims := [1, 2, 1], data := [.val 0, .val 1] },
    jacdet := some { rows := 2, cols := 1, data := [.val 1, .val 1] },
    quad_weights := some { rows := 2, cols := 1, data := [.val 2, .val (-1)] },
    normal := none }

/-- A one-element mesh with two nodes, determinant `1` at both and weights
`2` and `3`. -/
def unitJacMsh : MshMap :=
  { nqn := some 2, nel := some 1,
    quad_nodes := some { dims := [1, 2, 1], data := [.val 0, .val 1] },
    jacdet := some { rows := 2, cols := 1, data := [.val 1, .val 1] },
    quad_weights := some { rows := 2, cols := 1, data := [.val 2, .val 3] },
    normal := none }

/-- The geometry constructed from `unitJacMsh`. -/
def unitJacGeometry : geopdes_mesh :=
  (geopdes_mesh.construct unitJacMsh).get rfl

/-- A call of a public member function of `geopdes_space`. -/
inductive Call where
  | ndof
  | nsh_max
  | ncomp
  | nsh (iel : Int)
  | connectivity (ish iel : Int)
  | shape_functions (i j k m : Int)
  | shape_function_curls (i j k m : Int)
  | shape_function_curls_3 (i j k : Int)
  | shape_function_divs (j k m : Int)
  | shape_function_gradients (i j k m n : Int)

/-- What a call returns: an `octave_idx_type` or a `double`. -/
inductive Returned where
  | idx (n : Option Int)
  | real (d : Option Double)

/-- A call as state passing.  Every member function of the header is declared
`const` and the classes have no `mutable` member, so the object after the call
is the object before it. -/
def geopdes_space.call (s : geopdes_space) : Call → geopdes_space × Returned
  | .ndof => (s, .idx (some s.ndof))
  | .nsh_max => (s, .idx (some s.nsh_max))
  | .ncomp => (s, .idx (some s.ncomp))
  | .nsh iel => (s, .idx (s.nsh iel))
  | .connectivity ish iel => (s, .idx (s.connectivity ish iel))
  | .shape_functions i j k m => (s, .real (s.shape_functions i j k m))
  | .shape_function_curls i j k m => (s, .real (s.shape_function_curls i j k m))
  | .shape_function_curls_3 i j k => (s, .real (s.shape_function_curls_3 i j k))
  | .shape_function_divs j k m => (s, .real (s.shape_function_divs j k m))
  | .shape_function_gradients i j k m n =>
    (s, .real (s.shape_function_gradients i j k m n))

/-- The object after a sequence of calls. -/
def geopdes_space.run (s : geopdes_space) : List Call → geopdes_space
  | [] => s
  | c :: cs => (s.call c).1.run cs

/-- The virtual `shape_function_gradients (i, j, k, m, n)` called on a
`geopdes_space` through `geopdes_space_base`: the class overrides it. -/
def geopdes_space.virtual_shape_function_gradients (s : geopdes_space)
    (i j k m n : Int) : Option Double :=
  s.shape_function_gradients i j k m n

/-- The virtual `shape_function_curls (i, j, k, m)` called on a `geopdes_space`
through `geopdes_space_base`: the class overrides it. -/
def geopdes_space.virtual_shape_function_curls (s : geopdes_space)
    (i j k m : Int) : Option Double :=
  s.shape_function_curls i j k m

/-- The virtual `shape_function_divs (i, j, k, m)` called on a `geopdes_space`
through `geopdes_space_base`.  The class declares `shape_function_divs` with
three parameters only, which overrides nothing, so the call runs the default
body of the base class. -/
def geopdes_space.virtual_shape_function_divs (s : geopdes_space)
    (i j k m : Int) : Option Double :=
  s.togeopdes_space_base.shape_function_divs i j k m

/-- Indices `(i, j, k, m)` = (component, node, local shape, element) in range
for a space. -/
def geopdes_space.inRange4 (s : geopdes_space) (i j k m : Int) : Prop :=
  (0 ≤ i ∧ i < s.ncomp) ∧ (0 ≤ j ∧ j < s.nqn) ∧ (0 ≤ k ∧ k < s.nsh_max) ∧
  (0 ≤ m ∧ m < s.nel)

instance (s : geopdes_space) (i j k m : Int) : Decidable (s.inRange4 i j k m) := by
  unfold geopdes_space.inRange4; infer_instance

/-- Indices `(i, d, j, k, m)` = (component, direction, node, local shape,
element) in range for a space. -/
def geopdes_space.inRange5 (s : geopdes_space) (i d j k m : Int) : Prop :=
  (0 ≤ i ∧ i < s.ncomp) ∧ (0 ≤ d ∧ d < s.ndir) ∧ (0 ≤ j ∧ j < s.nqn) ∧
  (0 ≤ k ∧ k < s.nsh_max) ∧ (0 ≤ m ∧ m < s.nel)

instance (s : geopdes_space) (i d j k m : Int) : Decidable (s.inRange5 i d j k m) := by
  unfold geopdes_space.inRange5; infer_instance

/-- The comparison `a >= 0` on doubles; it is false for not-a-number. -/
def Double.nonneg : Double → Prop
  | Double.val a => 0 ≤ a
  | Double.posInf => True
  | Double.negInf => False
  | Double.NaN => False

instance : DecidablePred Double.nonneg := fun d =>
  match d with
  | Double.val a => inferInstanceAs (Decidable (0 ≤ a))
  | Double.posInf => isTrue trivial
  | Double.negInf => isFalse (fun h => h)
  | Double.NaN => isFalse (fun h => h)

/-- The sum over the nodes of an element of `|jacdet| * |weights|`, added up
node by node in the order of the loop of `area`. -/
def abs_abs_sum (m : geopdes_mesh) (element : Int) : Option Double :=
  (List.range m.nqn.toNat).foldlM
    (fun (a : Double) (node : Nat) => do
      let j ← m.jacdet (node : Int) element
      let w ← m.weights (node : Int) element
      pure (a + Double.abs j * Double.abs w))
    (0 : Double)

/-- A one-element mesh with two nodes, determinants `-1` and `2`, weights `3`
and `-4`. -/
def signedMsh : MshMap :=
  { nqn := some 2, nel := some 1,
    quad_nodes := some { dims := [1, 2, 1], data := [.val 0, .val 1] },
    jacdet := some { rows := 2, cols := 1, data := [.val (-1), .val 2] },
    quad_weights := some { rows := 2, cols := 1, data := [.val 3, .val (-4)] },
    normal := none }

/-- The geometry constructed from `signedMsh`. -/
def signedGeometry : geopdes_mesh :=
  (geopdes_mesh.construct signedMsh).get rfl

/-- A one-element, one-node mesh whose determinant is not-a-number. -/
def nanMsh : MshMap :=
  { nqn := some 1, nel := some 1,
    quad_nodes := some { dims := [1, 1, 1], data := [.val 0] },
    jacdet := some { rows := 1, cols := 1, data := [Double.NaN] },
    quad_weights := some { rows := 1, cols := 1, data := [.val 1] },
    normal := none }

/-- A one-element, one-node mesh whose determinant is `+Inf` and whose weight
is `0`: no entry is not-a-number. -/
def infZeroMsh : MshMap :=
  { nqn := some 1, nel := some 1,
    quad_nodes := some { dims := [1, 1, 1], data := [.val 0] },
    jacdet := some { rows := 1, cols := 1, data := [Double.posInf] },
    quad_weights := some { rows := 1, cols := 1, data := [.val 0] },
    normal := none }

/-- A double that is not below zero as far as it is a number: `>= 0` or
not-a-number. -/
def Double.nonnegOrNaN (d : Double) : Prop := d.nonneg ∨ d = Double.NaN

/-- The space map `sampleSp` with gradients supplied, every gradient entry
being not-a-number. -/
def nanGradSp : SpMap :=
  { sampleSp false false false with
    shape_function_gradients :=
      some { dims := [2, 2, 2, 2, 2], data := List.replicate 32 Double.NaN } }

/-- A scalar space map over `sampleMsh`: `ncomp = 1`, `nsh_max = 2`, curls
supplied when the flag says so. -/
def scalarSp (curl : Bool) : SpMap :=
  { ndof := some 4, nsh_max := some 2, ncomp := some 1,
    nsh := some { dims := [2, 1], data := [2, 2] },
    connectivity := some { dims := [2, 2], data := [0, 1, 2, 3] },
    shape_functions := some { dims := [1, 2, 2, 2], data := ramp 100 8 },
    shape_function_gradients := none,
    shape_function_curls :=
      if curl then some { dims := [2, 2, 2], data := ramp 50 8 } else none,
    shape_function_divs := none }

/-- The scalar space with curls, over `sampleGeometry`. -/
def scalarSpace : geopdes_space :=
  (geopdes_space.construct (scalarSp true) sampleGeometry).get rfl

/-! ## Lemmas on doubles, storage and loops -/

@[simp] theorem Double.val_add_val (a b : ℚ) :
    (Double.val a + Double.val b : Double) = Double.val (a + b) := rfl

@[simp] theorem Double.val_mul_val (a b : ℚ) :
    (Double.val a * Double.val b : Double) = Double.val (a * b) := rfl

@[simp] theorem Double.abs_val (a : ℚ) : Double.abs (Double.val a) = Double.val |a| := rfl

@[simp] theorem Double.zero_eq : (0 : Double) = Double.val 0 := rfl

theorem Double.mul_def (a b : Double) : a * b = Double.mul a b := rfl

theorem Double.abs_mul_abs (j w : Double) :
    Double.abs (j * w) = Double.abs j * Double.abs w := by
  cases j with
  | NaN => cases w <;> rfl
  | posInf =>
    cases w with
    | val b =>
      simp only [Double.mul_def, Double.mul, Double.abs]
      by_cases hb : b = 0
      · simp [hb]
      · have hpos : 0 < |b| := abs_pos.mpr hb
        simp only [hb, if_false, abs_eq_zero, hpos, if_true]
        split_ifs <;> rfl
    | _ => rfl
  | negInf =>
    cases w with
    | val b =>
      simp only [Double.mul_def, Double.mul, Double.abs]
      by_cases hb : b = 0
      · simp [hb]
      · have hpos : 0 < |b| := abs_pos.mpr hb
        simp only [hb, if_false, abs_eq_zero, hpos, if_true]
        split_ifs <;> rfl
    | _ => rfl
  | val a =>
    cases w with
    | NaN => rfl
    | val b => simp [abs_mul]
    | posInf =>
      simp only [Double.mul_def, Double.mul, Double.abs]
      by_cases ha : a = 0
      · simp [ha]
      · have hpos : 0 < |a| := abs_pos.mpr ha
        simp only [ha, if_false, abs_eq_zero, hpos, if_true]
        split_ifs <;> rfl
    | negInf =>
      simp only [Double.mul_def, Double.mul, Double.abs]
      by_cases ha : a = 0
      · simp [ha]
      · have hpos : 0 < |a| := abs_pos.mpr ha
        simp only [ha, if_false, abs_eq_zero, hpos, if_true]
        split_ifs <;> rfl

theorem Double.abs_of_not_isNeg (w : Double) (hw : ¬ w.isNeg) : Double.abs w = w := by
  cases w with
  | NaN => rfl
  | posInf => rfl
  | negInf => exact absurd trivial hw
  | val b =>
    have hb : 0 ≤ b := le_of_not_lt hw
    simp [abs_of_nonneg hb]

theorem Double.abs_mul_of_not_isNeg (j w : Double) (hw : ¬ w.isNeg) :
    Double.abs (j * w) = Double.abs j * w := by
  rw [Double.abs_mul_abs, Double.abs_of_not_isNeg w hw]

theorem readAt_eq_some_iff {α : Type} (data : List α) (off : Int) (v : α) :
    readAt data off = some v ↔ 0 ≤ off ∧ data[off.toNat]? = some v := by
  unfold readAt
  split <;> simp [*]

theorem readAt_isSome {α : Type} (data : List α) (off : Int)
    (h0 : 0 ≤ off) (h1 : off < (data.length : Int)) :
    ∃ v, readAt data off = some v ∧ data[off.toNat]? = some v := by
  have hlt : off.toNat < data.length := by omega
  refine ⟨data[off.toNat], ?_, ?_⟩
  · simp [readAt, h0, List.getElem?_eq_getElem hlt]
  · simp [List.getElem?_eq_getElem hlt]

theorem foldlM_option_congr {α β : Type} (l : List α) (f g : β → α → Option β)
    (h : ∀ x ∈ l, ∀ a, f a x = g a x) (init : β) :
    l.foldlM f init = l.foldlM g init := by
  induction l generalizing init with
  | nil => rfl
  | cons x xs ih =>
    simp only [List.foldlM_cons]
    rw [h x (List.mem_cons_self x xs) init]
    cases g init x with
    | none => rfl
    | some b =>
      exact ih (fun y hy a => h y (List.mem_cons_of_mem x hy) a) b

theorem foldlM_option_isSome {α β : Type} (l : List α) (f : β → α → Option β)
    (h : ∀ x ∈ l, ∀ a, ∃ b, f a x = some b) (init : β) :
    ∃ v, l.foldlM f init = some v := by
  induction l generalizing init with
  | nil => exact ⟨init, rfl⟩
  | cons x xs ih =>
    obtain ⟨b, hb⟩ := h x (List.mem_cons_self x xs) init
    simp only [List.foldlM_cons, hb]
    exact ih (fun y hy a => h y (List.mem_cons_of_mem x hy) a) b

/-- Two in-range indices give an in-range column-major offset. -/
theorem offset2_bounds (i j r c : Int) (hi0 : 0 ≤ i) (hi : i < r) (hj0 : 0 ≤ j) (hj : j < c) :
    0 ≤ i + r * j ∧ i + r * j < r * c := by
  have hr : 0 ≤ r := by omega
  constructor
  · positivity
  · have h1 : r * (j + 1) ≤ r * c := Int.mul_le_mul_of_nonneg_left (by omega) hr
    have h2 : r * (j + 1) = r * j + r := by ring
    omega

theorem Matrix.elem_isSome (a : Matrix) (r c i j : Int) (hs : a.hasShape r c)
    (hi0 : 0 ≤ i) (hi : i < r) (hj0 : 0 ≤ j) (hj : j < c) :
    ∃ v, a.elem i j = some v ∧ a.data[(i + r * j).toNat]? = some v := by
  obtain ⟨hr, hc, hl⟩ := hs
  have hb := offset2_bounds i j r c hi0 hi hj0 hj
  have hlen : (a.data.length : Int) = r * c := by
    rw [hl]; push_cast; rw [hr, hc]
  unfold Matrix.elem
  rw [hr]
  exact readAt_isSome a.data (i + r * j) hb.1 (by omega)

/-- Four in-range indices give an in-range offset. -/
theorem offset4_bounds (i j k m a b c d : Int)
    (hi0 : 0 ≤ i) (hi : i < a) (hj0 : 0 ≤ j) (hj : j < b)
    (hk0 : 0 ≤ k) (hk : k < c) (hm0 : 0 ≤ m) (hm : m < d) :
    0 ≤ i + a * (j + b * (k + c * m)) ∧ i + a * (j + b * (k + c * m)) < a * b * c * d := by
  have h1 := offset2_bounds k m c d hk0 hk hm0 hm
  have h2 := offset2_bounds j (k + c * m) b (c * d) hj0 hj h1.1 h1.2
  have h3 := offset2_bounds i (j + b * (k + c * m)) a (b * (c * d)) hi0 hi h2.1 h2.2
  have e : a * (b * (c * d)) = a * b * c * d := by ring
  rw [e] at h3
  exact h3

/-- Five in-range indices give an in-range offset. -/
theorem offset5_bounds (i j k m n a b c d e : Int)
    (hi0 : 0 ≤ i) (hi : i < a) (hj0 : 0 ≤ j) (hj : j < b)
    (hk0 : 0 ≤ k) (hk : k < c) (hm0 : 0 ≤ m) (hm : m < d) (hn0 : 0 ≤ n) (hn : n < e) :
    0 ≤ i + a * (j + b * (k + c * (m + d * n))) ∧
      i + a * (j + b * (k + c * (m + d * n))) < a * b * c * d * e := by
  have h1 := offset2_bounds m n d e hm0 hm hn0 hn
  have h2 := offset4_bounds i j k (m + d * n) a b c (d * e) hi0 hi hj0 hj hk0 hk h1.1 h1.2
  have e' : a * b * c * (d * e) = a * b * c * d * e := by ring
  rw [e'] at h2
  exact h2

/-- What the constructor of `geopdes_space` stores. -/
theorem geopdes_space.construct_space_fields (refsp : SpMap) (msh : geopdes_mesh)
    (s : geopdes_space) (h : geopdes_space.construct refsp msh = some s) :
    s.togeopdes_mesh = msh ∧ refsp.ndof = some s.ndof_rep ∧
    refsp.nsh_max = some s.nsh_max_rep ∧ refsp.ncomp = some s.ncomp_rep ∧
    refsp.nsh = some s.nsh_rep ∧ refsp.connectivity = some s.connectivity_rep ∧
    refsp.shape_functions.map (fun a => a.data) = some s.shape_functions_rep ∧
    s.shape_function_gradients_rep = refsp.shape_function_gradients.map (fun a => a.data) ∧
    s.shape_function_curls_rep = refsp.shape_function_curls.map (fun a => a.data) ∧
    s.shape_function_divs_rep = refsp.shape_function_divs.map (fun a => a.data) := by
  unfold geopdes_space.construct at h
  cases h1 : refsp.ndof <;> simp [h1] at h
  cases h2 : refsp.nsh_max <;> simp [h2] at h
  cases h3 : refsp.ncomp <;> simp [h3] at h
  cases h4 : refsp.nsh <;> simp [h4] at h
  cases h5 : refsp.connectivity <;> simp [h5] at h
  cases h6 : refsp.shape_functions <;> simp [h6] at h
  subst h
  refine ⟨rfl, rfl, rfl, rfl, rfl, rfl, rfl, ?_, ?_, ?_⟩
  · cases refsp.shape_function_gradients <;> rfl
  · cases refsp.shape_function_curls <;> rfl
  · cases refsp.shape_function_divs <;> rfl

/-- Three in-range indices give an in-range offset. -/
theorem offset3_bounds (i j k a b c : Int)
    (hi0 : 0 ≤ i) (hi : i < a) (hj0 : 0 ≤ j) (hj : j < b) (hk0 : 0 ≤ k) (hk : k < c) :
    0 ≤ i + a * (j + b * k) ∧ i + a * (j + b * k) < a * b * c := by
  have h1 := offset2_bounds j k b c hj0 hj hk0 hk
  have h2 := offset2_bounds i (j + b * k) a (b * c) hi0 hi h1.1 h1.2
  have e : a * (b * c) = a * b * c := by ring
  rw [e] at h2
  exact h2

theorem map_cast_eq_two (l : List Nat) (r c : Int)
    (h : l.map (fun d => (d : Int)) = [r, c]) :
    ∃ d1 d2 : Nat, l = [d1, d2] ∧ (d1 : Int) = r ∧ (d2 : Int) = c := by
  rcases l with _ | ⟨d1, _ | ⟨d2, _ | ⟨d3, t⟩⟩⟩ <;> simp at h
  exact ⟨d1, d2, rfl, h.1, h.2⟩

theorem map_cast_eq_three (l : List Nat) (r c d : Int)
    (h : l.map (fun d => (d : Int)) = [r, c, d]) :
    ∃ d1 d2 d3 : Nat, l = [d1, d2, d3] ∧ (d1 : Int) = r ∧ (d2 : Int) = c ∧ (d3 : Int) = d := by
  rcases l with _ | ⟨d1, _ | ⟨d2, _ | ⟨d3, _ | ⟨d4, t⟩⟩⟩⟩ <;> simp at h
  exact ⟨d1, d2, d3, rfl, h.1, h.2.1, h.2.2⟩

theorem NDArray.hasDims_two {α : Type} (a : NDArray α) (r c : Int) (h : a.hasDims [r, c]) :
    (a.dim1 : Int) = r ∧ (a.data.length : Int) = r * c := by
  obtain ⟨hd, hl⟩ := h
  obtain ⟨d1, d2, hds, h1, h2⟩ := map_cast_eq_two a.dims r c hd
  rw [hds] at hl
  simp only [List.prod_cons, List.prod_nil, mul_one] at hl
  refine ⟨?_, ?_⟩
  · simp [NDArray.dim1, hds, h1]
  · rw [hl]; push_cast; rw [h1, h2]

theorem NDArray.hasDims_three {α : Type} (a : NDArray α) (r c d : Int)
    (h : a.hasDims [r, c, d]) :
    (a.dim1 : Int) = r ∧ (a.dim2 : Int) = c ∧ (a.data.length : Int) = r * c * d := by
  obtain ⟨hd, hl⟩ := h
  obtain ⟨d1, d2, d3, hds, h1, h2, h3⟩ := map_cast_eq_three a.dims r c d hd
  rw [hds] at hl
  simp only [List.prod_cons, List.prod_nil, mul_one] at hl
  refine ⟨?_, ?_, ?_⟩
  · simp [NDArray.dim1, hds, h1]
  · simp [NDArray.dim2, hds, h2]
  · rw [hl]; push_cast; rw [h1, h2, h3]; ring

theorem NDArray.elem2_isSome {α : Type} (a : NDArray α) (r c i j : Int)
    (hs : a.hasDims [r, c]) (hi0 : 0 ≤ i) (hi : i < r) (hj0 : 0 ≤ j) (hj : j < c) :
    ∃ v, a.elem2 i j = some v ∧ a.data[(i + r * j).toNat]? = some v := by
  obtain ⟨hr, hl⟩ := NDArray.hasDims_two a r c hs
  have hb := offset2_bounds i j r c hi0 hi hj0 hj
  unfold NDArray.elem2
  rw [hr]
  exact readAt_isSome a.data (i + r * j) hb.1 (by omega)

theorem NDArray.elem3_isSome {α : Type} (a : NDArray α) (r c d i j k : Int)
    (hs : a.hasDims [r, c, d]) (hi0 : 0 ≤ i) (hi : i < r) (hj0 : 0 ≤ j) (hj : j < c)
    (hk0 : 0 ≤ k) (hk : k < d) :
    ∃ v, a.elem3 i j k = some v ∧ a.data[(i + r * (j + c * k)).toNat]? = some v := by
  obtain ⟨hr, hc, hl⟩ := NDArray.hasDims_three a r c d hs
  have hb := offset3_bounds i j k r c d hi0 hi hj0 hj hk0 hk
  unfold NDArray.elem3
  rw [hr, hc]
  exact readAt_isSome a.data (i + r * (j + c * k)) hb.1 (by omega)

/-- What the constructor of `geopdes_mesh` stores. -/
theorem geopdes_mesh.construct_mesh_fields (refmsh : MshMap) (m : geopdes_mesh)
    (h : geopdes_mesh.construct refmsh = some m) :
    refmsh.nqn = some m.nqn ∧ refmsh.nel = some m.nel ∧
    refmsh.quad_nodes.map (fun a => (a.dim1 : Int)) = some m.ndir ∧
    refmsh.jacdet = some m.jacdet_rep ∧ refmsh.quad_weights = some m.weights_rep ∧
    m.msh = refmsh := by
  unfold geopdes_mesh.construct at h
  cases h1 : refmsh.nqn <;> simp [h1] at h
  cases h2 : refmsh.nel <;> simp [h2] at h
  cases h3 : refmsh.quad_nodes <;> simp [h3] at h
  cases h4 : refmsh.jacdet <;> simp [h4] at h
  cases h5 : refmsh.quad_weights <;> simp [h5] at h
  subst h
  exact ⟨rfl, rfl, rfl, rfl, rfl, rfl⟩

theorem readAt_isSome_eq {α : Type} (data : List α) (off : Int)
    (h0 : 0 ≤ off) (h1 : off < (data.length : Int)) : (readAt data off).isSome = true := by
  obtain ⟨v, hv, _⟩ := readAt_isSome data off h0 h1
  rw [hv]; rfl

/-- The accessor `connectivity` reads the stored array of the map. -/
theorem connectivity_stored_aux (refsp : SpMap) (msh : geopdes_mesh) (s : geopdes_space)
    (C : NDArray Int) (h : geopdes_space.construct refsp msh = some s)
    (hC : refsp.connectivity = some C) (hCs : C.hasDims [s.nsh_max, s.nel])
    (l e : Int) (hl0 : 0 ≤ l) (hl : l < s.nsh_max) (he0 : 0 ≤ e) (he : e < s.nel) :
    ∃ g, s.connectivity l e = some g ∧ C.data[(l + s.nsh_max * e).toNat]? = some g := by
  have h6 := (geopdes_space.construct_space_fields refsp msh s h).2.2.2.2.2.1
  have eC : s.connectivity_rep = C := by rw [hC] at h6; exact (Option.some.inj h6).symm
  unfold geopdes_space.connectivity
  rw [eC]
  exact NDArray.elem2_isSome C _ _ l e hCs hl0 hl he0 he

/-! ## Claims -/

/-- C2: `shape_functions (i, j, k, m)` reads the flat buffer at the offset of
the specification's formula for extents `(ncomp, nqn, nsh_max, nel)`, that is
`i + ncomp * (j + nqn * (k + nsh_max * m))`; for indices in range and a buffer
holding `ncomp * nqn * nsh_max * nel` entries it returns the entry stored there. -/
theorem shape_functions_offset (s : geopdes_space) (i j k m : Int) :
    s.shape_functions i j k m =
        readAt s.shape_functions_rep (spec_offset [s.ncomp, s.nqn, s.nsh_max, s.nel] [i, j, k, m]) ∧
    spec_offset [s.ncomp, s.nqn, s.nsh_max, s.nel] [i, j, k, m] =
        i + s.ncomp * (j + s.nqn * (k + s.nsh_max * m)) ∧
    ((s.shape_functions_rep.length : Int) = s.ncomp * s.nqn * s.nsh_max * s.nel →
      0 ≤ i → i < s.ncomp → 0 ≤ j → j < s.nqn → 0 ≤ k → k < s.nsh_max → 0 ≤ m → m < s.nel →
      ∃ v, s.shape_functions i j k m = some v ∧
        s.shape_functions_rep[(i + s.ncomp * (j + s.nqn * (k + s.nsh_max * m))).toNat]? = some v) := by
  have e : spec_offset [s.ncomp, s.nqn, s.nsh_max, s.nel] [i, j, k, m] =
      i + s.ncomp * (j + s.nqn * (k + s.nsh_max * m)) := by
    simp [spec_offset]
  refine ⟨by rw [e]; rfl, e, ?_⟩
  intro hl hi0 hi hj0 hj hk0 hk hm0 hm
  have hb := offset4_bounds i j k m _ _ _ _ hi0 hi hj0 hj hk0 hk hm0 hm
  exact readAt_isSome _ _ hb.1 (by rw [hl]; exact hb.2)

/-- Witness for C2: in the sample space the entry `(1, 0, 1, 1)` is the one at
offset `1 + 2 * (0 + 2 * (1 + 2 * 1)) = 13`. -/
theorem shape_functions_offset_sample :
    ∃ msh s, geopdes_mesh.construct sampleMsh = some msh ∧
      geopdes_space.construct (sampleSp true true true) msh = some s ∧
      s.shape_functions 1 0 1 1 = some (Double.val 113) ∧
      ∃ v, s.shape_functions 1 0 1 1 = some v ∧ s.shape_functions_rep[13]? = some v :=
  ⟨_, _, rfl, rfl, by with_unfolding_all decide,
    (shape_functions_offset _ 1 0 1 1).2.2 (by with_unfolding_all decide)
      (by decide) (by decide) (by decide) (by decide) (by decide) (by decide)
      (by decide) (by decide)⟩

/-- C3: when gradients were supplied, `shape_function_gradients (i, j, k, m, n)`
reads the gradient buffer at the offset of the specification's formula for
extents `(ncomp, ndir, nqn, nsh_max, nel)`, that is
`i + ncomp * (j + ndir * (k + nqn * (m + nsh_max * n)))`; for indices in range
and a buffer holding `ncomp * ndir * nqn * nsh_max * nel` entries it returns
the entry stored there. -/
theorem shape_function_gradients_offset (s : geopdes_space) (rep : List Double)
    (hrep : s.shape_function_gradients_rep = some rep) (i j k m n : Int) :
    s.shape_function_gradients i j k m n =
        readAt rep (spec_offset [s.ncomp, s.ndir, s.nqn, s.nsh_max, s.nel] [i, j, k, m, n]) ∧
    spec_offset [s.ncomp, s.ndir, s.nqn, s.nsh_max, s.nel] [i, j, k, m, n] =
        i + s.ncomp * (j + s.ndir * (k + s.nqn * (m + s.nsh_max * n))) ∧
    ((rep.length : Int) = s.ncomp * s.ndir * s.nqn * s.nsh_max * s.nel →
      0 ≤ i → i < s.ncomp → 0 ≤ j → j < s.ndir → 0 ≤ k → k < s.nqn →
      0 ≤ m → m < s.nsh_max → 0 ≤ n → n < s.nel →
      ∃ v, s.shape_function_gradients i j k m n = some v ∧
        rep[(i + s.ncomp * (j + s.ndir * (k + s.nqn * (m + s.nsh_max * n)))).toNat]? = some v) := by
  have e : spec_offset [s.ncomp, s.ndir, s.nqn, s.nsh_max, s.nel] [i, j, k, m, n] =
      i + s.ncomp * (j + s.ndir * (k + s.nqn * (m + s.nsh_max * n))) := by
    simp [spec_offset]
  have hacc : s.shape_function_gradients i j k m n =
      readAt rep (i + s.ncomp * (j + s.ndir * (k + s.nqn * (m + s.nsh_max * n)))) := by
    simp [geopdes_space.shape_function_gradients, hrep]
  refine ⟨by rw [e]; exact hacc, e, ?_⟩
  intro hl hi0 hi hj0 hj hk0 hk hm0 hm hn0 hn
  have hb := offset5_bounds i j k m n _ _ _ _ _ hi0 hi hj0 hj hk0 hk hm0 hm hn0 hn
  rw [hacc]
  exact readAt_isSome _ _ hb.1 (by rw [hl]; exact hb.2)

/-- Witness for C3: in the sample space the gradient entry `(1, 0, 1, 1, 1)` is
the one at offset `1 + 2 * (0 + 2 * (1 + 2 * (1 + 2 * 1))) = 29`. -/
theorem shape_function_gradients_offset_sample :
    ∃ msh s, geopdes_mesh.construct sampleMsh = some msh ∧
      geopdes_space.construct (sampleSp true false false) msh = some s ∧
      s.shape_function_gradients 1 0 1 1 1 = some (Double.val 229) ∧
      ∃ v, s.shape_function_gradients 1 0 1 1 1 = some v ∧ (ramp 200 32)[29]? = some v :=
  ⟨_, _, rfl, rfl, by with_unfolding_all decide,
    (shape_function_gradients_offset _ (ramp 200 32) rfl 1 0 1 1 1).2.2
      (by with_unfolding_all decide)
      (by decide) (by decide) (by decide) (by decide) (by decide) (by decide)
      (by decide) (by decide) (by decide) (by decide)⟩

/-- C4: a space constructed from a map without the field
`shape_function_gradients` returns `octave_NaN` from
`shape_function_gradients` at every index tuple, in range or not: the pointer
is `NULL`, no buffer is read and the call has a result.  The default body in
`geopdes_space_base` returns `octave_NaN` as well. -/
theorem shape_function_gradients_absent (refsp : SpMap) (msh : geopdes_mesh)
    (s : geopdes_space) (h : geopdes_space.construct refsp msh = some s)
    (habs : refsp.shape_function_gradients = none) (b : geopdes_space_base)
    (i j k m n : Int) :
    s.shape_function_gradients_rep = none ∧
    s.shape_function_gradients i j k m n = some octave_NaN ∧
    b.shape_function_gradients i j k m n = some octave_NaN := by
  have hf := (geopdes_space.construct_space_fields refsp msh s h).2.2.2.2.2.2.2.1
  rw [habs] at hf
  refine ⟨hf, ?_, rfl⟩
  simp [geopdes_space.shape_function_gradients, show s.shape_function_gradients_rep = none from hf]

/-- Witness for C4: the sample space built without gradients (curls and
divergences supplied) answers `octave_NaN` also at an index tuple far out of
range. -/
theorem shape_function_gradients_absent_sample :
    ∃ msh s, geopdes_mesh.construct sampleMsh = some msh ∧
      geopdes_space.construct (sampleSp false true true) msh = some s ∧
      s.shape_function_gradients_rep = none ∧
      s.shape_function_gradients 7 (-3) 0 100 1 = some octave_NaN ∧
      s.togeopdes_space_base.shape_function_gradients 7 (-3) 0 100 1 = some octave_NaN :=
  ⟨_, _, rfl, rfl,
    shape_function_gradients_absent (sampleSp false true true) _ _ rfl rfl _ 7 (-3) 0 100 1⟩

/-- C5 (as amended): the three optional tensors are handled independently.
For a space constructed from any map (all eight presence combinations), each
of `shape_function_gradients`, `shape_function_curls` (both overloads) and
`shape_function_divs` has a `NULL` pointer exactly when its own field is
absent from the map; it then returns `octave_NaN` at every index tuple, and
otherwise reads its own field's data at its own offset, returning the entry
stored there (which may itself be not-a-number).  The other two fields do not
enter. -/
theorem optional_tensors_independent (refsp : SpMap) (msh : geopdes_mesh)
    (s : geopdes_space) (h : geopdes_space.construct refsp msh = some s) :
    ((s.shape_function_gradients_rep = none ↔ refsp.shape_function_gradients = none) ∧
      ∀ i j k m n, s.shape_function_gradients i j k m n =
        match refsp.shape_function_gradients with
        | none => some octave_NaN
        | some a =>
          readAt a.data (i + s.ncomp * (j + s.ndir * (k + s.nqn * (m + s.nsh_max * n))))) ∧
    ((s.shape_function_curls_rep = none ↔ refsp.shape_function_curls = none) ∧
      (∀ i j k m, s.shape_function_curls i j k m =
        match refsp.shape_function_curls with
        | none => some octave_NaN
        | some a => readAt a.data (i + s.ncomp * (j + s.nqn * (k + s.nsh_max * m)))) ∧
      (∀ i j k, s.shape_function_curls_3 i j k =
        match refsp.shape_function_curls with
        | none => some octave_NaN
        | some a => readAt a.data (i + s.nqn * (j + s.nsh_max * k)))) ∧
    ((s.shape_function_divs_rep = none ↔ refsp.shape_function_divs = none) ∧
      ∀ j k m, s.shape_function_divs j k m =
        match refsp.shape_function_divs with
        | none => some octave_NaN
        | some a => readAt a.data (j + s.nqn * (k + s.nsh_max * m))) := by
  obtain ⟨_, _, _, _, _, _, _, hg, hc, hd⟩ := geopdes_space.construct_space_fields refsp msh s h
  refine ⟨⟨?_, ?_⟩, ⟨?_, ?_, ?_⟩, ⟨?_, ?_⟩⟩
  · rw [hg]; cases refsp.shape_function_gradients <;> simp
  · intro i j k m n
    unfold geopdes_space.shape_function_gradients
    rw [hg]; cases refsp.shape_function_gradients <;> rfl
  · rw [hc]; cases refsp.shape_function_curls <;> simp
  · intro i j k m
    unfold geopdes_space.shape_function_curls
    rw [hc]; cases refsp.shape_function_curls <;> rfl
  · intro i j k
    unfold geopdes_space.shape_function_curls_3
    rw [hc]; cases refsp.shape_function_curls <;> rfl
  · rw [hd]; cases refsp.shape_function_divs <;> simp
  · intro j k m
    unfold geopdes_space.shape_function_divs
    rw [hd]; cases refsp.shape_function_divs <;> rfl

/-- Witness for C5: with gradients and divergences supplied and curls absent,
the gradient and divergence accessors return stored entries while both curl
overloads return `octave_NaN`. -/
theorem optional_tensors_independent_sample :
    ∃ msh s, geopdes_mesh.construct sampleMsh = some msh ∧
      geopdes_space.construct (sampleSp true false true) msh = some s ∧
      s.shape_function_gradients 0 1 0 0 0 = some (Double.val 202) ∧
      s.shape_function_curls 0 1 0 0 = some octave_NaN ∧
      s.shape_function_curls_3 0 1 0 = some octave_NaN ∧
      s.shape_function_divs 1 1 0 = some (Double.val 403) ∧
      (s.shape_function_curls_rep = none ↔ (sampleSp true false true).shape_function_curls = none) :=
  ⟨_, _, rfl, rfl, by with_unfolding_all decide, by with_unfolding_all decide,
    by with_unfolding_all decide, by with_unfolding_all decide,
    (optional_tensors_independent (sampleSp true false true) _ _ rfl).2.1.1⟩

theorem readAt_replicate {α : Type} (n : Nat) (x : α) (off : Int)
    (h0 : 0 ≤ off) (h1 : off < (n : Int)) : readAt (List.replicate n x) off = some x := by
  have hlt : off.toNat < n := by omega
  simp [readAt, h0, List.getElem?_replicate, hlt]

/-- C5 (as stated) fails: over the sample geometry, the map that supplies
gradients with every entry not-a-number yields a space whose gradient pointer
is not `NULL` and whose `shape_function_gradients` returns `octave_NaN` at
every index tuple in range, although the tensor is present. -/
theorem present_tensor_returns_nan :
    ∃ s, geopdes_space.construct nanGradSp sampleGeometry = some s ∧
      nanGradSp.shape_function_gradients.isSome = true ∧
      s.shape_function_gradients_rep = some (List.replicate 32 Double.NaN) ∧
      s.shape_function_gradients 0 0 0 0 0 = some octave_NaN ∧
      s.shape_function_gradients 1 1 1 1 1 = some octave_NaN ∧
      ∀ i d j k m, s.inRange5 i d j k m →
        s.shape_function_gradients i d j k m = some octave_NaN := by
  refine ⟨_, rfl, rfl, rfl, by decide, by decide, ?_⟩
  intro i d j k m ⟨hi, hd, hj, hk, hm⟩
  have hb := offset5_bounds i d j k m _ _ _ _ _ hi.1 hi.2 hd.1 hd.2 hj.1 hj.2 hk.1 hk.2
    hm.1 hm.2
  exact readAt_replicate 32 Double.NaN _ hb.1 hb.2

/-- C6: round trip through construction.  For a geometry built from a map
whose `jacdet` and `quad_weights` matrices have shape `nqn x nel`, and every
pair `node < nqn`, `element < nel` in range, `jacdet (node, element)` and
`weights (node, element)` return the entries stored in the supplied matrices
at column-major offset `node + nqn * element`. -/
theorem jacdet_weights_roundtrip (refmsh : MshMap) (m : geopdes_mesh) (J W : Matrix)
    (h : geopdes_mesh.construct refmsh = some m)
    (hJ : refmsh.jacdet = some J) (hW : refmsh.quad_weights = some W)
    (hJs : J.hasShape m.nqn m.nel) (hWs : W.hasShape m.nqn m.nel)
    (node element : Int) (hn0 : 0 ≤ node) (hn : node < m.nqn)
    (he0 : 0 ≤ element) (he : element < m.nel) :
    refmsh.nqn = some m.nqn ∧ refmsh.nel = some m.nel ∧
    (∃ v, m.jacdet node element = some v ∧
      J.data[(node + m.nqn * element).toNat]? = some v) ∧
    (∃ v, m.weights node element = some v ∧
      W.data[(node + m.nqn * element).toNat]? = some v) := by
  obtain ⟨h1, h2, _, h4, h5, _⟩ := geopdes_mesh.construct_mesh_fields refmsh m h
  have eJ : m.jacdet_rep = J := by rw [hJ] at h4; exact (Option.some.inj h4).symm
  have eW : m.weights_rep = W := by rw [hW] at h5; exact (Option.some.inj h5).symm
  refine ⟨h1, h2, ?_, ?_⟩
  · unfold geopdes_mesh.jacdet
    rw [eJ]
    exact Matrix.elem_isSome J _ _ node element hJs hn0 hn he0 he
  · unfold geopdes_mesh.weights
    rw [eW]
    exact Matrix.elem_isSome W _ _ node element hWs hn0 hn he0 he

/-- Witness for C6: in the sample mesh, node `1` of element `1` has the
entries at offset `1 + 2 * 1 = 3` of the two matrices. -/
theorem jacdet_weights_roundtrip_sample :
    ∃ m, geopdes_mesh.construct sampleMsh = some m ∧
      m.jacdet 1 1 = some (Double.val 13) ∧ m.weights 1 1 = some (Double.val 23) ∧
      (∃ v, m.jacdet 1 1 = some v ∧ (ramp 10 4)[3]? = some v) ∧
      (∃ v, m.weights 1 1 = some v ∧ (ramp 20 4)[3]? = some v) :=
  ⟨_, rfl, by with_unfolding_all decide, by with_unfolding_all decide,
    (jacdet_weights_roundtrip sampleMsh _ ⟨2, 2, ramp 10 4⟩ ⟨2, 2, ramp 20 4⟩ rfl rfl rfl
      (by decide) (by decide) 1 1 (by decide) (by decide) (by decide) (by decide)).2.2⟩

/-- C7: for a space built from a map whose `connectivity` array has extents
`[nsh_max][nel]`, and every `local_index < nsh_max`, `element < nel` in
range, `connectivity (local_index, element)` returns the entry stored at
`(local_index, element)`, offset `local_index + nsh_max * element`.  Nothing
is asked of `nsh (element)`: slots at or beyond it are returned as stored. -/
theorem connectivity_stored (refsp : SpMap) (msh : geopdes_mesh) (s : geopdes_space)
    (C : NDArray Int) (h : geopdes_space.construct refsp msh = some s)
    (hC : refsp.connectivity = some C) (hCs : C.hasDims [s.nsh_max, s.nel])
    (local_index element : Int) (hl0 : 0 ≤ local_index) (hl : local_index < s.nsh_max)
    (he0 : 0 ≤ element) (he : element < s.nel) :
    ∃ g, s.connectivity local_index element = some g ∧
      C.data[(local_index + s.nsh_max * element).toNat]? = some g :=
  connectivity_stored_aux refsp msh s C h hC hCs local_index element hl0 hl he0 he

/-- Witness for C7: the specification's scenario gives `global_dof (0, 0) = 3`
and `global_dof (1, 0) = 7`; with `nsh = [1]` instead, the unused slot
`(1, 0)` is still returned as stored. -/
theorem connectivity_stored_scenario :
    ∃ msh s s1, geopdes_mesh.construct oneElMsh = some msh ∧
      geopdes_space.construct (scenarioSp 2) msh = some s ∧
      geopdes_space.construct (scenarioSp 1) msh = some s1 ∧
      s.nsh 0 = some 2 ∧ s.connectivity 0 0 = some 3 ∧ s.connectivity 1 0 = some 7 ∧
      s1.nsh 0 = some 1 ∧ s1.connectivity 1 0 = some 7 ∧
      ∃ g, s1.connectivity 1 0 = some g ∧ ([3, 7] : List Int)[1]? = some g :=
  ⟨_, _, _, rfl, rfl, rfl, by decide, by decide, by decide, by decide, by decide,
    connectivity_stored (scenarioSp 1) _ _ ⟨[2, 1], [3, 7]⟩ rfl rfl (by decide) 1 0
      (by decide) (by decide) (by decide) (by decide)⟩

/-- C9 (as amended): the constructor compares no extents.  From a map holding
the six mandatory fields it yields a space, whatever the extents of
`shape_functions`: the buffer is the tensor's data as supplied, `nqn` and
`nel` are those of the geometry and `ncomp`, `nsh_max` the declared scalars;
replacing the extents of the tensor by any others changes no value returned by
`shape_functions`. -/
theorem construct_ignores_extents (refsp : SpMap) (msh : geopdes_mesh)
    (ndof nsh_max ncomp : Int) (nsh connectivity : NDArray Int) (sf : NDArray Double)
    (h1 : refsp.ndof = some ndof) (h2 : refsp.nsh_max = some nsh_max)
    (h3 : refsp.ncomp = some ncomp) (h4 : refsp.nsh = some nsh)
    (h5 : refsp.connectivity = some connectivity) (h6 : refsp.shape_functions = some sf) :
    ∃ s, geopdes_space.construct refsp msh = some s ∧
      s.shape_functions_rep = sf.data ∧
      s.nqn = msh.nqn ∧ s.nel = msh.nel ∧ s.ncomp = ncomp ∧ s.nsh_max = nsh_max ∧
      ∀ dims : List Nat, ∃ s1,
        geopdes_space.construct
          { refsp with shape_functions := some { dims := dims, data := sf.data } } msh = some s1 ∧
        ∀ i j k m, s1.shape_functions i j k m = s.shape_functions i j k m := by
  have hs : ∃ s, geopdes_space.construct refsp msh = some s := by
    simp [geopdes_space.construct, h1, h2, h3, h4, h5, h6]
  obtain ⟨s, hs⟩ := hs
  obtain ⟨f0, _, f2, f3, _, _, f6, _⟩ := geopdes_space.construct_space_fields refsp msh s hs
  rw [h6] at f6
  have g6 : s.shape_functions_rep = sf.data := (Option.some.inj f6).symm
  have g3 : s.ncomp_rep = ncomp := by rw [h3] at f3; exact (Option.some.inj f3).symm
  have g2 : s.nsh_max_rep = nsh_max := by rw [h2] at f2; exact (Option.some.inj f2).symm
  refine ⟨s, hs, g6, by rw [← f0], by rw [← f0], g3, g2, ?_⟩
  intro dims
  have hs1 : ∃ s1, geopdes_space.construct
      { refsp with shape_functions := some { dims := dims, data := sf.data } } msh = some s1 := by
    simp [geopdes_space.construct, h1, h2, h3, h4, h5]
  obtain ⟨s1, hs1⟩ := hs1
  obtain ⟨e0, _, e2, e3, _, _, e6, _⟩ := geopdes_space.construct_space_fields _ msh s1 hs1
  have k6 : s1.shape_functions_rep = sf.data := (Option.some.inj e6).symm
  have k3 : s1.ncomp_rep = ncomp := by
    have : refsp.ncomp = some s1.ncomp_rep := e3
    rw [h3] at this; exact (Option.some.inj this).symm
  have k2 : s1.nsh_max_rep = nsh_max := by
    have : refsp.nsh_max = some s1.nsh_max_rep := e2
    rw [h2] at this; exact (Option.some.inj this).symm
  refine ⟨s1, hs1, ?_⟩
  intro i j k m
  unfold geopdes_space.shape_functions geopdes_space_base.ncomp geopdes_space_base.nsh_max
  rw [k6, g6, k3, g3, k2, g2, e0, f0]

/-- Witness for C9: the sample map, whose extents are consistent, yields a
space. -/
theorem construct_ignores_extents_sample :
    ∃ s, geopdes_space.construct (sampleSp true true true) sampleGeometry = some s ∧
      s.shape_functions_rep = ramp 100 16 ∧
      s.nqn = sampleGeometry.nqn ∧ s.nel = sampleGeometry.nel ∧ s.ncomp = 2 ∧
      s.nsh_max = 2 ∧
      ∀ dims : List Nat, ∃ s1,
        geopdes_space.construct
          { sampleSp true true true with
            shape_functions := some { dims := dims, data := ramp 100 16 } }
          sampleGeometry = some s1 ∧
        ∀ i j k m, s1.shape_functions i j k m = s.shape_functions i j k m :=
  construct_ignores_extents (sampleSp true true true) sampleGeometry 4 2 2
    ⟨[2, 1], [2, 2]⟩ ⟨[2, 2], [0, 1, 2, 3]⟩ ⟨[2, 2, 2, 2], ramp 100 16⟩ rfl rfl rfl rfl rfl rfl

/-- C9 (as stated) fails: over the sample geometry (`nqn = 2`, `nel = 2`), the
map declaring `ncomp = 2`, `nsh_max = 2` with a `shape_functions` tensor of
extents `[3][1][1][1]` yields a space, and its accessor reads the three
entries that are there. -/
theorem mismatched_extents_construct :
    ∃ s, geopdes_space.construct mismatchedSp sampleGeometry = some s ∧
      mismatchedSp.shape_functions.map (fun a => a.dims) = some [3, 1, 1, 1] ∧
      [s.ncomp, s.nqn, s.nsh_max, s.nel] = [2, 2, 2, 2] ∧
      s.shape_functions_rep.length = 3 ∧
      s.shape_functions 0 1 0 0 = some (Double.val 102) :=
  ⟨_, rfl, rfl, rfl, rfl, by with_unfolding_all decide⟩

/-- C10 (as amended): the constructor does not look at the connectivity
entries, and `connectivity` returns them as stored.  For a space built from a
map whose `connectivity` has extents `[nsh_max][nel]`, if the entries stored
at the active slots (`local_index < nsh (e)`) lie in `[0, ndof ())`, then for
every element `e < nel` with `nsh (e) <= nsh_max` and every
`local_index < nsh (e)` the accessor returns the entry `g` stored at
`(local_index, e)`, offset `local_index + nsh_max * e`, and `0 <= g < ndof ()`. -/
theorem connectivity_in_range (refsp : SpMap) (msh : geopdes_mesh) (s : geopdes_space)
    (C : NDArray Int) (h : geopdes_space.construct refsp msh = some s)
    (hC : refsp.connectivity = some C) (hCs : C.hasDims [s.nsh_max, s.nel])
    (hact : ∀ e : Nat, e < s.nel.toNat → ∀ n ∈ s.nsh (e : Int), ∀ l : Nat, l < n.toNat →
      ∀ g ∈ C.data[((l : Int) + s.nsh_max * (e : Int)).toNat]?, 0 ≤ g ∧ g < s.ndof)
    (local_index e n : Int) (he0 : 0 ≤ e) (he : e < s.nel) (hn : s.nsh e = some n)
    (hmax : n ≤ s.nsh_max) (hl0 : 0 ≤ local_index) (hl : local_index < n) :
    ∃ g, s.connectivity local_index e = some g ∧
      C.data[(local_index + s.nsh_max * e).toNat]? = some g ∧ 0 ≤ g ∧ g < s.ndof := by
  obtain ⟨g, hg, hst⟩ :=
    connectivity_stored_aux refsp msh s C h hC hCs local_index e hl0 (by omega) he0 he
  refine ⟨g, hg, hst, ?_⟩
  have ee : ((e.toNat : Nat) : Int) = e := Int.toNat_of_nonneg he0
  have el : ((local_index.toNat : Nat) : Int) = local_index := Int.toNat_of_nonneg hl0
  have := hact e.toNat (by omega) n (by rw [ee]; exact hn) local_index.toNat (by omega) g
    (by rw [ee, el]; exact hst)
  exact this

/-- Witness for C10: in the sample space (`ndof = 4`, connectivity
`0, 1, 2, 3`) the active slot `(1, 1)` holds `3`. -/
theorem connectivity_in_range_sample :
    sampleSpace.connectivity 1 1 = some 3 ∧
    ∃ g, sampleSpace.connectivity 1 1 = some g ∧
      ([0, 1, 2, 3] : List Int)[((1 : Int) + sampleSpace.nsh_max * 1).toNat]? = some g ∧
      0 ≤ g ∧ g < sampleSpace.ndof :=
  ⟨by decide,
    connectivity_in_range (sampleSp true true true) sampleGeometry sampleSpace
      ⟨[2, 2], [0, 1, 2, 3]⟩ rfl rfl (by decide) (by decide) 1 1 2 (by decide) (by decide)
      (by decide) (by decide) (by decide) (by decide)⟩

/-- C10 (as stated) fails: the map declaring `ndof = 4` with the entry `9` at
the active slot `(1, 1)` yields a space, `nsh (1) = 2`, and
`connectivity (1, 1)` is `9`, outside `[0, ndof ())`. -/
theorem connectivity_not_in_range :
    ∃ s, geopdes_space.construct largeDofSp sampleGeometry = some s ∧
      s.ndof = 4 ∧ s.nsh 1 = some 2 ∧ s.connectivity 1 1 = some 9 ∧
      ¬ ∃ g, s.connectivity 1 1 = some g ∧ 0 ≤ g ∧ g < s.ndof :=
  ⟨_, rfl, rfl, by decide, by decide, by decide⟩

theorem Double.abs_one_mul_of_not_isNeg (w : Double) (hw : ¬ w.isNeg) :
    Double.abs (Double.val 1 * w) = w := by
  cases w with
  | NaN => rfl
  | posInf => simp [Double.mul_def, Double.mul, Double.abs]
  | negInf => exact absurd trivial hw
  | val b =>
    have hb : 0 ≤ b := le_of_not_lt hw
    simp [abs_of_nonneg hb]

/-- C11 (as amended): for a geometry in which `jacdet (q, e) = 1` at all nodes
of element `e`, no weight of the element is negative and the weights of the
element sum to `W`, `area (e)` returns `W` (exact arithmetic). -/
theorem area_eq_weights_sum (m : geopdes_mesh) (e : Int) (W : Double)
    (hj : ∀ q : Nat, q < m.nqn.toNat → m.jacdet (q : Int) e = some (Double.val 1))
    (hw : ∀ q : Nat, q < m.nqn.toNat → ∀ w ∈ m.weights (q : Int) e, ¬ w.isNeg)
    (hW : weights_sum m e = some W) :
    m.area e = some W := by
  rw [← hW]
  unfold geopdes_mesh.area geopdes_mesh_base.area weights_sum
  apply foldlM_option_congr
  intro q hq a
  have hq1 : q < m.nqn.toNat := List.mem_range.mp hq
  rw [hj q hq1]
  cases hwq : m.weights (q : Int) e with
  | none => rfl
  | some w =>
    have := Double.abs_one_mul_of_not_isNeg w (hw q hq1 w hwq)
    simp only [Option.bind_eq_bind, Option.some_bind, this]

/-- Witness for C11: with determinant `1` and weights `2` and `3`, the area of
the element is `5`. -/
theorem area_eq_weights_sum_sample :
    weights_sum unitJacGeometry 0 = some (Double.val 5) ∧
    unitJacGeometry.area 0 = some (Double.val 5) :=
  ⟨by with_unfolding_all decide,
    area_eq_weights_sum unitJacGeometry 0 (Double.val 5) (by with_unfolding_all decide)
      (by with_unfolding_all decide) (by with_unfolding_all decide)⟩

/-- C11 (as stated) fails: with determinant `1` at both nodes and weights `2`
and `-1`, the weights sum to `1` while `area` returns `3`. -/
theorem area_ne_weights_sum_negative_weight :
    ∃ m, geopdes_mesh.construct mixedSignMsh = some m ∧
      m.jacdet 0 0 = some (Double.val 1) ∧ m.jacdet 1 0 = some (Double.val 1) ∧
      m.nqn = 2 ∧ weights_sum m 0 = some (Double.val 1) ∧
      m.area 0 = some (Double.val 3) ∧ m.area 0 ≠ weights_sum m 0 :=
  ⟨_, rfl, by with_unfolding_all decide, by with_unfolding_all decide, rfl,
    by with_unfolding_all decide, by with_unfolding_all decide, by with_unfolding_all decide⟩

/-- What the constructor of `geopdes_mesh_normal` stores. -/
theorem geopdes_mesh_normal.construct_normal_fields (refmsh : MshMap)
    (mn : geopdes_mesh_normal) (h : geopdes_mesh_normal.construct refmsh = some mn) :
    geopdes_mesh.construct refmsh = some mn.togeopdes_mesh ∧
    refmsh.normal = some mn.normal_rep := by
  unfold geopdes_mesh_normal.construct at h
  cases hb : geopdes_mesh.construct refmsh with
  | none => simp [hb] at h
  | some base =>
    have hmsh : base.msh = refmsh := (geopdes_mesh.construct_mesh_fields refmsh base hb).2.2.2.2.2
    simp only [hb, Option.bind_eq_bind, Option.some_bind, hmsh] at h
    cases hn : refmsh.normal with
    | none => simp [hn] at h
    | some N =>
      simp only [hn, Option.some_bind] at h
      have := Option.some.inj h
      subst this
      exact ⟨rfl, rfl⟩

/-- C12: a surface geometry is a geometry plus normals.  For a surface
geometry built from a map whose `normal` tensor has extents
`[ndir][nqn][nel]`, and indices in range, `normal (direction, node, element)`
returns the entry stored at offset `direction + ndir * (node + nqn * element)`;
and the plain geometry built from the same map has the same `nqn`, `nel`,
`ndir`, `jacdet`, `weights` and `area`. -/
theorem normal_stored (refmsh : MshMap) (mn : geopdes_mesh_normal) (N : NDArray Double)
    (h : geopdes_mesh_normal.construct refmsh = some mn) (hN : refmsh.normal = some N)
    (hNs : N.hasDims [mn.ndir, mn.nqn, mn.nel])
    (direction node element : Int) (hd0 : 0 ≤ direction) (hd : direction < mn.ndir)
    (hq0 : 0 ≤ node) (hq : node < mn.nqn) (he0 : 0 ≤ element) (he : element < mn.nel) :
    (∃ v, mn.normal direction node element = some v ∧
      N.data[(direction + mn.ndir * (node + mn.nqn * element)).toNat]? = some v) ∧
    spec_offset [mn.ndir, mn.nqn, mn.nel] [direction, node, element] =
      direction + mn.ndir * (node + mn.nqn * element) ∧
    ∃ g, geopdes_mesh.construct refmsh = some g ∧
      mn.nqn = g.nqn ∧ mn.nel = g.nel ∧ mn.ndir = g.ndir ∧
      (∀ q e, mn.jacdet q e = g.jacdet q e) ∧ (∀ q e, mn.weights q e = g.weights q e) ∧
      (∀ e, mn.area e = g.area e) ∧ (∀ e, mn.volume e = g.volume e) := by
  obtain ⟨hg, hn⟩ := geopdes_mesh_normal.construct_normal_fields refmsh mn h
  have eN : mn.normal_rep = N := by rw [hN] at hn; exact (Option.some.inj hn).symm
  refine ⟨?_, by simp [spec_offset], mn.togeopdes_mesh, hg, rfl, rfl, rfl,
    fun _ _ => rfl, fun _ _ => rfl, fun _ => rfl, fun _ => rfl⟩
  unfold geopdes_mesh_normal.normal
  rw [eN]
  exact NDArray.elem3_isSome N _ _ _ direction node element hNs hd0 hd hq0 hq he0 he

/-- Witness for C12: in the sample surface geometry the normal entry
`(1, 0, 1)` is the one at offset `1 + 2 * (0 + 2 * 1) = 5`. -/
theorem normal_stored_sample :
    sampleSurface.normal 1 0 1 = some (Double.val 35) ∧
    ∃ v, sampleSurface.normal 1 0 1 = some v ∧ (ramp 30 8)[5]? = some v :=
  ⟨by with_unfolding_all decide,
    (normal_stored sampleMsh sampleSurface ⟨[2, 2, 2], ramp 30 8⟩ rfl rfl (by decide) 1 0 1
      (by decide) (by decide) (by decide) (by decide) (by decide) (by decide)).1⟩

/-- C13: when divergences were supplied, `shape_function_divs (j, k, m)` reads
the divergence buffer at the offset of the specification's formula for
extents `(nqn, nsh_max, nel)`, that is `j + nqn * (k + nsh_max * m)`, with no
stride for the component: the result is the same for every value of `ncomp`.
For indices in range and a buffer holding `nqn * nsh_max * nel` entries it
returns the entry stored there. -/
theorem shape_function_divs_offset (s : geopdes_space) (rep : List Double)
    (hrep : s.shape_function_divs_rep = some rep) (j k m : Int) :
    s.shape_function_divs j k m =
        readAt rep (spec_offset [s.nqn, s.nsh_max, s.nel] [j, k, m]) ∧
    spec_offset [s.nqn, s.nsh_max, s.nel] [j, k, m] = j + s.nqn * (k + s.nsh_max * m) ∧
    (∀ c : Int, ({ s with ncomp_rep := c } : geopdes_space).shape_function_divs j k m =
      s.shape_function_divs j k m) ∧
    ((rep.length : Int) = s.nqn * s.nsh_max * s.nel →
      0 ≤ j → j < s.nqn → 0 ≤ k → k < s.nsh_max → 0 ≤ m → m < s.nel →
      ∃ v, s.shape_function_divs j k m = some v ∧
        rep[(j + s.nqn * (k + s.nsh_max * m)).toNat]? = some v) := by
  have e : spec_offset [s.nqn, s.nsh_max, s.nel] [j, k, m] =
      j + s.nqn * (k + s.nsh_max * m) := by
    simp [spec_offset]
  have hacc : s.shape_function_divs j k m = readAt rep (j + s.nqn * (k + s.nsh_max * m)) := by
    simp [geopdes_space.shape_function_divs, hrep]
  refine ⟨by rw [e]; exact hacc, e, fun _ => rfl, ?_⟩
  intro hl hj0 hj hk0 hk hm0 hm
  have hb := offset3_bounds j k m _ _ _ hj0 hj hk0 hk hm0 hm
  rw [hacc]
  exact readAt_isSome _ _ hb.1 (by rw [hl]; exact hb.2)

/-- Witness for C13: in the sample space (`ncomp = 2`) the divergence entry
`(1, 0, 1)` is the one at offset `1 + 2 * (0 + 2 * 1) = 5`. -/
theorem shape_function_divs_offset_sample :
    sampleSpace.ncomp = 2 ∧
    sampleSpace.shape_function_divs 1 0 1 = some (Double.val 405) ∧
    ∃ v, sampleSpace.shape_function_divs 1 0 1 = some v ∧ (ramp 400 8)[5]? = some v :=
  ⟨rfl, by with_unfolding_all decide,
    (shape_function_divs_offset sampleSpace (ramp 400 8) rfl 1 0 1).2.2.2
      (by with_unfolding_all decide)
      (by decide) (by decide) (by decide) (by decide) (by decide) (by decide)⟩

theorem geopdes_space.run_eq (s : geopdes_space) (calls : List Call) : s.run calls = s := by
  induction calls with
  | nil => rfl
  | cons c cs ih =>
    have hc : (s.call c).1 = s := by cases c <;> rfl
    simp only [geopdes_space.run, hc, ih]

/-- C14: a space is tied to the geometry it was constructed with.  After
construction from a map and a mesh `M`, `nqn`, `nel` and `ndir` of the space
are `M.nqn ()`, `M.nel ()` and `M.ndir ()`, so these are the strides of
`shape_functions`, `shape_function_gradients`, `shape_function_divs` and both
overloads of `shape_function_curls`; `ndof`, `nsh_max` and
`ncomp` are the scalar fields of the map; and after any sequence of accessor
calls the six parameters are the same. -/
theorem space_tied_to_geometry (refsp : SpMap) (M : geopdes_mesh) (s : geopdes_space)
    (h : geopdes_space.construct refsp M = some s) :
    (s.nqn = M.nqn ∧ s.nel = M.nel ∧ s.ndir = M.ndir) ∧
    (refsp.ndof = some s.ndof ∧ refsp.nsh_max = some s.nsh_max ∧
      refsp.ncomp = some s.ncomp) ∧
    (∀ i j k m, s.shape_functions i j k m =
      readAt s.shape_functions_rep (i + s.ncomp * (j + M.nqn * (k + s.nsh_max * m)))) ∧
    (∀ rep, s.shape_function_gradients_rep = some rep → ∀ i j k m n,
      s.shape_function_gradients i j k m n =
        readAt rep (i + s.ncomp * (j + M.ndir * (k + M.nqn * (m + s.nsh_max * n))))) ∧
    (∀ rep, s.shape_function_divs_rep = some rep → ∀ j k m,
      s.shape_function_divs j k m = readAt rep (j + M.nqn * (k + s.nsh_max * m))) ∧
    (∀ rep, s.shape_function_curls_rep = some rep →
      (∀ i j k m, s.shape_function_curls i j k m =
        readAt rep (i + s.ncomp * (j + M.nqn * (k + s.nsh_max * m)))) ∧
      (∀ i j k, s.shape_function_curls_3 i j k =
        readAt rep (i + M.nqn * (j + s.nsh_max * k)))) ∧
    ∀ calls : List Call,
      (s.run calls).nqn = M.nqn ∧ (s.run calls).nel = M.nel ∧ (s.run calls).ndir = M.ndir ∧
      refsp.ndof = some (s.run calls).ndof ∧ refsp.nsh_max = some (s.run calls).nsh_max ∧
      refsp.ncomp = some (s.run calls).ncomp := by
  obtain ⟨f0, f1, f2, f3, _⟩ := geopdes_space.construct_space_fields refsp M s h
  have hq : s.nqn = M.nqn := by rw [← f0]
  have he : s.nel = M.nel := by rw [← f0]
  have hd : s.ndir = M.ndir := by rw [← f0]
  refine ⟨⟨hq, he, hd⟩, ⟨f1, f2, f3⟩, ?_, ?_, ?_, ?_, ?_⟩
  · intro i j k m
    rw [← hq]; rfl
  · intro rep hrep i j k m n
    rw [← hq, ← hd]
    simp [geopdes_space.shape_function_gradients, hrep]
  · intro rep hrep j k m
    rw [← hq]
    simp [geopdes_space.shape_function_divs, hrep]
  · intro rep hrep
    refine ⟨?_, ?_⟩
    · intro i j k m
      rw [← hq]
      simp [geopdes_space.shape_function_curls, hrep]
    · intro i j k
      rw [← hq]
      simp [geopdes_space.shape_function_curls_3, hrep]
  · intro calls
    rw [geopdes_space.run_eq]
    exact ⟨hq, he, hd, f1, f2, f3⟩

/-- Witness for C14: the sample space has the parameters of the sample
geometry and of its map, also after a few accessor calls. -/
theorem space_tied_to_geometry_sample :
    (sampleSpace.nqn = sampleGeometry.nqn ∧ sampleSpace.nel = sampleGeometry.nel ∧
      sampleSpace.ndir = sampleGeometry.ndir) ∧
    ((sampleSp true true true).ndof = some sampleSpace.ndof ∧
      (sampleSp true true true).nsh_max = some sampleSpace.nsh_max ∧
      (sampleSp true true true).ncomp = some sampleSpace.ncomp) ∧
    (sampleSpace.run [Call.shape_functions 1 1 1 1, Call.nsh 0, Call.connectivity 5 5]).nqn = 2 :=
  ⟨(space_tied_to_geometry (sampleSp true true true) sampleGeometry sampleSpace rfl).1,
    (space_tied_to_geometry (sampleSp true true true) sampleGeometry sampleSpace rfl).2.1,
    rfl⟩

/-- C15: through the abstract interface divergence data cannot be reached.
The four-index virtual `shape_function_divs` called on a buffer-backed space
returns `octave_NaN` at every index tuple, also when divergences were
supplied; the three-index member reads the buffer, and returns the stored
entry for indices in range and a buffer of `nqn * nsh_max * nel` entries.  The
four-index curl, which the class overrides, does reach its buffer through the
interface. -/
theorem divs_unreachable_through_interface (s : geopdes_space) (i j k m : Int) :
    s.virtual_shape_function_divs i j k m = some octave_NaN ∧
    (∀ rep, s.shape_function_divs_rep = some rep →
      s.virtual_shape_function_divs i j k m = some octave_NaN ∧
      s.shape_function_divs j k m = readAt rep (j + s.nqn * (k + s.nsh_max * m)) ∧
      ((rep.length : Int) = s.nqn * s.nsh_max * s.nel →
        0 ≤ j → j < s.nqn → 0 ≤ k → k < s.nsh_max → 0 ≤ m → m < s.nel →
        ∃ v, s.shape_function_divs j k m = some v ∧
          rep[(j + s.nqn * (k + s.nsh_max * m)).toNat]? = some v)) ∧
    (∀ rep, s.shape_function_curls_rep = some rep →
      s.virtual_shape_function_curls i j k m =
        readAt rep (i + s.ncomp * (j + s.nqn * (k + s.nsh_max * m)))) := by
  refine ⟨rfl, ?_, ?_⟩
  · intro rep hrep
    have hacc : s.shape_function_divs j k m =
        readAt rep (j + s.nqn * (k + s.nsh_max * m)) := by
      simp [geopdes_space.shape_function_divs, hrep]
    refine ⟨rfl, hacc, ?_⟩
    intro hl hj0 hj hk0 hk hm0 hm
    have hb := offset3_bounds j k m _ _ _ hj0 hj hk0 hk hm0 hm
    rw [hacc]
    exact readAt_isSome _ _ hb.1 (by rw [hl]; exact hb.2)
  · intro rep hrep
    simp [geopdes_space.virtual_shape_function_curls, geopdes_space.shape_function_curls, hrep]

/-- Witness for C15: in the sample space, built with divergences, the
four-index virtual call answers `octave_NaN` where the three-index member
returns the stored `407`. -/
theorem divs_unreachable_through_interface_sample :
    sampleSpace.shape_function_divs_rep = some (ramp 400 8) ∧
    sampleSpace.virtual_shape_function_divs 0 1 1 1 = some octave_NaN ∧
    sampleSpace.shape_function_divs 1 1 1 = some (Double.val 407) ∧
    ∃ v, sampleSpace.shape_function_divs 1 1 1 = some v ∧ (ramp 400 8)[7]? = some v :=
  ⟨rfl, rfl, by with_unfolding_all decide,
    ((divs_unreachable_through_interface sampleSpace 0 1 1 1).2.1 (ramp 400 8) rfl).2.2
      (by with_unfolding_all decide)
      (by decide) (by decide) (by decide) (by decide) (by decide) (by decide)⟩

/-- C16: indices in range give offsets in range.  For indices in range, the
offset of `shape_functions` and of the four-index `shape_function_curls` lies
in `[0, ncomp * nqn * nsh_max * nel)`, the offset of
`shape_function_gradients` in `[0, ncomp * ndir * nqn * nsh_max * nel)` and
the offset of `shape_function_divs` in `[0, nqn * nsh_max * nel)`; so with a
buffer of the documented size each accessor reads inside it and returns a
value. -/
theorem offsets_in_bounds (s : geopdes_space) (i d j k m : Int)
    (hj0 : 0 ≤ j) (hj : j < s.nqn) (hk0 : 0 ≤ k) (hk : k < s.nsh_max)
    (hm0 : 0 ≤ m) (hm : m < s.nel) :
    ((0 ≤ j + s.nqn * (k + s.nsh_max * m) ∧
        j + s.nqn * (k + s.nsh_max * m) < s.nqn * s.nsh_max * s.nel) ∧
      ∀ rep, s.shape_function_divs_rep = some rep →
        (rep.length : Int) = s.nqn * s.nsh_max * s.nel →
        ∃ v, s.shape_function_divs j k m = some v ∧
          rep[(j + s.nqn * (k + s.nsh_max * m)).toNat]? = some v) ∧
    (0 ≤ i → i < s.ncomp →
      ((0 ≤ i + s.ncomp * (j + s.nqn * (k + s.nsh_max * m)) ∧
          i + s.ncomp * (j + s.nqn * (k + s.nsh_max * m)) <
            s.ncomp * s.nqn * s.nsh_max * s.nel) ∧
        ((s.shape_functions_rep.length : Int) = s.ncomp * s.nqn * s.nsh_max * s.nel →
          ∃ v, s.shape_functions i j k m = some v ∧
            s.shape_functions_rep[(i + s.ncomp * (j + s.nqn * (k + s.nsh_max * m))).toNat]? =
              some v) ∧
        ∀ rep, s.shape_function_curls_rep = some rep →
          (rep.length : Int) = s.ncomp * s.nqn * s.nsh_max * s.nel →
          ∃ v, s.shape_function_curls i j k m = some v ∧
            rep[(i + s.ncomp * (j + s.nqn * (k + s.nsh_max * m))).toNat]? = some v) ∧
      (0 ≤ d → d < s.ndir →
        (0 ≤ i + s.ncomp * (d + s.ndir * (j + s.nqn * (k + s.nsh_max * m))) ∧
          i + s.ncomp * (d + s.ndir * (j + s.nqn * (k + s.nsh_max * m))) <
            s.ncomp * s.ndir * s.nqn * s.nsh_max * s.nel) ∧
        ∀ rep, s.shape_function_gradients_rep = some rep →
          (rep.length : Int) = s.ncomp * s.ndir * s.nqn * s.nsh_max * s.nel →
          ∃ v, s.shape_function_gradients i d j k m = some v ∧
            rep[(i + s.ncomp * (d + s.ndir * (j + s.nqn * (k + s.nsh_max * m)))).toNat]? =
              some v)) := by
  have b3 := offset3_bounds j k m _ _ _ hj0 hj hk0 hk hm0 hm
  refine ⟨⟨b3, ?_⟩, ?_⟩
  · intro rep hrep hl
    have hacc : s.shape_function_divs j k m =
        readAt rep (j + s.nqn * (k + s.nsh_max * m)) := by
      simp [geopdes_space.shape_function_divs, hrep]
    rw [hacc]
    exact readAt_isSome _ _ b3.1 (by rw [hl]; exact b3.2)
  · intro hi0 hi
    have b4 := offset4_bounds i j k m _ _ _ _ hi0 hi hj0 hj hk0 hk hm0 hm
    refine ⟨⟨b4, ?_, ?_⟩, ?_⟩
    · intro hl
      exact readAt_isSome _ _ b4.1 (by rw [hl]; exact b4.2)
    · intro rep hrep hl
      have hacc : s.shape_function_curls i j k m =
          readAt rep (i + s.ncomp * (j + s.nqn * (k + s.nsh_max * m))) := by
        simp [geopdes_space.shape_function_curls, hrep]
      rw [hacc]
      exact readAt_isSome _ _ b4.1 (by rw [hl]; exact b4.2)
    · intro hd0 hd
      have b5 := offset5_bounds i d j k m _ _ _ _ _ hi0 hi hd0 hd hj0 hj hk0 hk hm0 hm
      refine ⟨b5, ?_⟩
      intro rep hrep hl
      have hacc : s.shape_function_gradients i d j k m =
          readAt rep (i + s.ncomp * (d + s.ndir * (j + s.nqn * (k + s.nsh_max * m)))) := by
        simp [geopdes_space.shape_function_gradients, hrep]
      rw [hacc]
      exact readAt_isSome _ _ b5.1 (by rw [hl]; exact b5.2)

/-- Witness for C16: in the sample space, where every extent is `2`, the
largest indices in range give the last offsets `7`, `15` and `31`. -/
theorem offsets_in_bounds_sample :
    ((0 : Int) ≤ 1 + sampleSpace.nqn * (1 + sampleSpace.nsh_max * 1) ∧
      1 + sampleSpace.nqn * (1 + sampleSpace.nsh_max * 1) <
        sampleSpace.nqn * sampleSpace.nsh_max * sampleSpace.nel) ∧
    sampleSpace.shape_function_divs 1 1 1 = some (Double.val 407) ∧
    sampleSpace.shape_functions 1 1 1 1 = some (Double.val 115) ∧
    sampleSpace.shape_function_curls 1 1 1 1 = some (Double.val 315) ∧
    sampleSpace.shape_function_gradients 1 1 1 1 1 = some (Double.val 231) :=
  ⟨(offsets_in_bounds sampleSpace 1 1 1 1 1 (by decide) (by decide) (by decide) (by decide)
      (by decide) (by decide)).1.1,
    by with_unfolding_all decide, by with_unfolding_all decide, by with_unfolding_all decide,
    by with_unfolding_all decide⟩

/-- One level of the flattening is injective on first indices in range. -/
theorem offset2_inj (i j i1 j1 a : Int) (hi0 : 0 ≤ i) (hi : i < a)
    (hi10 : 0 ≤ i1) (hi1 : i1 < a) (h : i + a * j = i1 + a * j1) : i = i1 ∧ j = j1 := by
  have ha : 0 ≤ a := by omega
  have hjj : j = j1 := by
    rcases lt_trichotomy j j1 with hlt | heq | hgt
    · exfalso
      have h1 : a * (j + 1) ≤ a * j1 := Int.mul_le_mul_of_nonneg_left (by omega) ha
      have h2 : a * (j + 1) = a * j + a := by ring
      omega
    · exact heq
    · exfalso
      have h1 : a * (j1 + 1) ≤ a * j := Int.mul_le_mul_of_nonneg_left (by omega) ha
      have h2 : a * (j1 + 1) = a * j1 + a := by ring
      omega
  subst hjj
  exact ⟨by omega, rfl⟩

/-- One level of the flattening reaches every offset below `a * c`. -/
theorem offset2_surj (off a c : Int) (h0 : 0 ≤ off) (h : off < a * c) (ha : 0 ≤ a) :
    ∃ i j, (0 ≤ i ∧ i < a) ∧ (0 ≤ j ∧ j < a * c / a) ∧ j < c ∧ i + a * j = off := by
  have hapos : 0 < a := by
    rcases eq_or_lt_of_le ha with h1 | h1
    · rw [← h1] at h; simp at h; omega
    · exact h1
  have hjc : off / a < c := Int.ediv_lt_of_lt_mul hapos (by rw [mul_comm]; exact h)
  refine ⟨off % a, off / a, ⟨Int.emod_nonneg _ (ne_of_gt hapos), Int.emod_lt_of_pos _ hapos⟩,
    ⟨Int.ediv_nonneg h0 ha, ?_⟩, hjc, Int.emod_add_ediv off a⟩
  rw [Int.mul_ediv_cancel_left _ (ne_of_gt hapos)]
  exact hjc

theorem offset4_inj (a b c : Int) (i j k m i1 j1 k1 m1 : Int)
    (hi : 0 ≤ i ∧ i < a) (hj : 0 ≤ j ∧ j < b) (hk : 0 ≤ k ∧ k < c)
    (hi1 : 0 ≤ i1 ∧ i1 < a) (hj1 : 0 ≤ j1 ∧ j1 < b) (hk1 : 0 ≤ k1 ∧ k1 < c)
    (h : i + a * (j + b * (k + c * m)) = i1 + a * (j1 + b * (k1 + c * m1))) :
    i = i1 ∧ j = j1 ∧ k = k1 ∧ m = m1 := by
  obtain ⟨e1, r1⟩ := offset2_inj i _ i1 _ a hi.1 hi.2 hi1.1 hi1.2 h
  obtain ⟨e2, r2⟩ := offset2_inj j _ j1 _ b hj.1 hj.2 hj1.1 hj1.2 r1
  obtain ⟨e3, r3⟩ := offset2_inj k _ k1 _ c hk.1 hk.2 hk1.1 hk1.2 r2
  exact ⟨e1, e2, e3, r3⟩

theorem offset4_surj (a b c d off : Int) (ha : 0 ≤ a) (hb : 0 ≤ b) (hc : 0 ≤ c)
    (h0 : 0 ≤ off) (h : off < a * b * c * d) :
    ∃ i j k m, (0 ≤ i ∧ i < a) ∧ (0 ≤ j ∧ j < b) ∧ (0 ≤ k ∧ k < c) ∧ (0 ≤ m ∧ m < d) ∧
      i + a * (j + b * (k + c * m)) = off := by
  have e : a * b * c * d = a * (b * (c * d)) := by ring
  rw [e] at h
  obtain ⟨i, r1, hi, ⟨hr10, _⟩, hr1, e1⟩ := offset2_surj off a (b * (c * d)) h0 h ha
  obtain ⟨j, r2, hj, ⟨hr20, _⟩, hr2, e2⟩ := offset2_surj r1 b (c * d) hr10 hr1 hb
  obtain ⟨k, m, hk, ⟨hm0, _⟩, hm, e3⟩ := offset2_surj r2 c d hr20 hr2 hc
  exact ⟨i, j, k, m, hi, hj, hk, ⟨hm0, hm⟩, by rw [e3, e2, e1]⟩

/-- C17: the flattening does not alias.  On indices in range, the offset map
of `shape_functions`, `(i, j, k, m) -> i + ncomp * (j + nqn * (k + nsh_max * m))`,
and the offset map of `shape_function_gradients`,
`(i, d, j, k, m) -> i + ncomp * (d + ndir * (j + nqn * (k + nsh_max * m)))`,
are injective; and for non-negative extents each reaches every offset below
the product of the extents, so each is a bijection onto
`[0, product of extents)` and every position of a buffer of that size is the
one read by some call in range. -/
theorem offsets_injective (s : geopdes_space) :
    (∀ i j k m i1 j1 k1 m1, s.inRange4 i j k m → s.inRange4 i1 j1 k1 m1 →
      i + s.ncomp * (j + s.nqn * (k + s.nsh_max * m)) =
        i1 + s.ncomp * (j1 + s.nqn * (k1 + s.nsh_max * m1)) →
      i = i1 ∧ j = j1 ∧ k = k1 ∧ m = m1) ∧
    (∀ i d j k m i1 d1 j1 k1 m1, s.inRange5 i d j k m → s.inRange5 i1 d1 j1 k1 m1 →
      i + s.ncomp * (d + s.ndir * (j + s.nqn * (k + s.nsh_max * m))) =
        i1 + s.ncomp * (d1 + s.ndir * (j1 + s.nqn * (k1 + s.nsh_max * m1))) →
      i = i1 ∧ d = d1 ∧ j = j1 ∧ k = k1 ∧ m = m1) ∧
    (0 ≤ s.ncomp → 0 ≤ s.nqn → 0 ≤ s.nsh_max → 0 ≤ s.nel →
      ∀ off, 0 ≤ off → off < s.ncomp * s.nqn * s.nsh_max * s.nel →
        ∃ i j k m, s.inRange4 i j k m ∧
          i + s.ncomp * (j + s.nqn * (k + s.nsh_max * m)) = off ∧
          s.shape_functions i j k m = readAt s.shape_functions_rep off) ∧
    (0 ≤ s.ncomp → 0 ≤ s.ndir → 0 ≤ s.nqn → 0 ≤ s.nsh_max → 0 ≤ s.nel →
      ∀ off, 0 ≤ off → off < s.ncomp * s.ndir * s.nqn * s.nsh_max * s.nel →
        ∃ i d j k m, s.inRange5 i d j k m ∧
          i + s.ncomp * (d + s.ndir * (j + s.nqn * (k + s.nsh_max * m))) = off ∧
          ∀ rep, s.shape_function_gradients_rep = some rep →
            s.shape_function_gradients i d j k m = readAt rep off) := by
  refine ⟨?_, ?_, ?_, ?_⟩
  · intro i j k m i1 j1 k1 m1 ⟨hi, hj, hk, _⟩ ⟨hi1, hj1, hk1, _⟩ h
    exact offset4_inj _ _ _ i j k m i1 j1 k1 m1 hi hj hk hi1 hj1 hk1 h
  · intro i d j k m i1 d1 j1 k1 m1 ⟨hi, hd, hj, hk, _⟩ ⟨hi1, hd1, hj1, hk1, _⟩ h
    obtain ⟨e1, e2, e3, r⟩ :=
      offset4_inj _ _ _ i d j (k + s.nsh_max * m) i1 d1 j1 (k1 + s.nsh_max * m1)
        hi hd hj hi1 hd1 hj1 h
    obtain ⟨e4, e5⟩ := offset2_inj k m k1 m1 _ hk.1 hk.2 hk1.1 hk1.2 r
    exact ⟨e1, e2, e3, e4, e5⟩
  · intro ha hb hc _ off h0 h
    obtain ⟨i, j, k, m, hi, hj, hk, hm, e⟩ := offset4_surj _ _ _ _ off ha hb hc h0 h
    refine ⟨i, j, k, m, ⟨hi, hj, hk, hm⟩, e, ?_⟩
    unfold geopdes_space.shape_functions
    rw [e]
  · intro ha hb hc hd _ off h0 h
    have e5 : s.ncomp * s.ndir * s.nqn * s.nsh_max * s.nel =
        s.ncomp * s.ndir * s.nqn * (s.nsh_max * s.nel) := by ring
    rw [e5] at h
    obtain ⟨i, d, j, r, hi, hdd, hj, ⟨hr0, hr⟩, e⟩ := offset4_surj _ _ _ _ off ha hb hc h0 h
    obtain ⟨k, m, hk, ⟨hm0, _⟩, hm, e2⟩ := offset2_surj r _ _ hr0 hr hd
    have eo : i + s.ncomp * (d + s.ndir * (j + s.nqn * (k + s.nsh_max * m))) = off := by
      rw [e2, e]
    refine ⟨i, d, j, k, m, ⟨hi, hdd, hj, hk, ⟨hm0, hm⟩⟩, eo, ?_⟩
    intro rep hrep
    simp [geopdes_space.shape_function_gradients, hrep, eo]

/-- Witness for C17: in the sample space, a tuple in range with the offset of
`(1, 0, 1, 1)` is `(1, 0, 1, 1)`, and offset `13` is reached by a tuple in
range. -/
theorem offsets_injective_sample :
    ((1 : Int) = 1 ∧ (0 : Int) = 0 ∧ (1 : Int) = 1 ∧ (1 : Int) = 1) ∧
    ∃ i j k m, sampleSpace.inRange4 i j k m ∧
      i + sampleSpace.ncomp * (j + sampleSpace.nqn * (k + sampleSpace.nsh_max * m)) = 13 ∧
      sampleSpace.shape_functions i j k m = readAt sampleSpace.shape_functions_rep 13 :=
  ⟨(offsets_injective sampleSpace).1 1 0 1 1 1 0 1 1 (by decide) (by decide) (by decide),
    (offsets_injective sampleSpace).2.2.1 (by decide) (by decide) (by decide) (by decide)
      13 (by decide) (by decide)⟩

theorem foldlM_option_invariant {α β : Type} (P : β → Prop) (l : List α)
    (f : β → α → Option β) (h : ∀ x ∈ l, ∀ a b, P a → f a x = some b → P b)
    (init : β) (h0 : P init) (v : β) (hv : l.foldlM f init = some v) : P v := by
  induction l generalizing init with
  | nil =>
    have : init = v := by simpa using hv
    rw [← this]; exact h0
  | cons x xs ih =>
    simp only [List.foldlM_cons] at hv
    cases hfx : f init x with
    | none => rw [hfx] at hv; simp at hv
    | some b =>
      rw [hfx] at hv
      exact ih (fun y hy a c => h y (List.mem_cons_of_mem x hy) a c) b
        (h x (List.mem_cons_self x xs) init b h0 hfx) hv

theorem Double.add_def (a b : Double) : a + b = Double.add a b := rfl

theorem Double.abs_nonnegOrNaN (x : Double) : (Double.abs x).nonnegOrNaN := by
  cases x with
  | val q => exact Or.inl (abs_nonneg q)
  | posInf => exact Or.inl trivial
  | negInf => exact Or.inl trivial
  | NaN => exact Or.inr rfl

theorem Double.add_nonnegOrNaN (a b : Double) (ha : a.nonnegOrNaN) (hb : b.nonnegOrNaN) :
    (a + b).nonnegOrNaN := by
  cases a with
  | NaN => cases b <;> exact Or.inr rfl
  | negInf =>
    rcases ha with h | h
    · exact absurd h (fun h => h)
    · exact absurd h (by decide)
  | posInf =>
    cases b with
    | NaN => exact Or.inr rfl
    | negInf =>
      rcases hb with h | h
      · exact absurd h (fun h => h)
      · exact absurd h (by decide)
    | posInf => exact Or.inl trivial
    | val y => exact Or.inl trivial
  | val x =>
    cases b with
    | NaN => exact Or.inr rfl
    | negInf =>
      rcases hb with h | h
      · exact absurd h (fun h => h)
      · exact absurd h (by decide)
    | posInf => exact Or.inl trivial
    | val y =>
      rcases ha with h | h
      · rcases hb with h1 | h1
        · exact Or.inl (add_nonneg h h1)
        · exact absurd h1 (by simp)
      · exact absurd h (by simp)

/-- C18 (as amended): `area (e)` adds up `|jacdet (q, e) * weights (q, e)|`,
which is `|jacdet| * |weights|`, over the nodes `q < nqn`; `volume (e)` is
`area (e)`, and `area (e)` is `0` when `nqn = 0`.  The result is never below
zero: it is `>= 0` or not-a-number, for every input; and it is `>= 0`
whenever the stored determinants and weights of the element are finite
numbers, negative ones included. -/
theorem area_abs_product (m : geopdes_mesh) (e : Int) :
    m.area e = abs_abs_sum m e ∧
    m.volume e = m.area e ∧
    (m.nqn ≤ 0 → m.area e = some (Double.val 0)) ∧
    (∀ v, m.area e = some v → (v.nonneg ∨ v = Double.NaN) ∧ ¬ v.isNeg) ∧
    (∀ J Wt : Nat → ℚ,
      (∀ q : Nat, q < m.nqn.toNat → m.jacdet (q : Int) e = some (Double.val (J q))) →
      (∀ q : Nat, q < m.nqn.toNat → m.weights (q : Int) e = some (Double.val (Wt q))) →
      ∃ v, m.area e = some v ∧ v.nonneg) := by
  refine ⟨?_, rfl, ?_, ?_, ?_⟩
  · unfold geopdes_mesh.area geopdes_mesh_base.area abs_abs_sum
    apply foldlM_option_congr
    intro q _ a
    cases m.jacdet (q : Int) e with
    | none => rfl
    | some j =>
      cases m.weights (q : Int) e with
      | none => rfl
      | some w =>
        simp only [Option.bind_eq_bind, Option.some_bind, Double.abs_mul_abs]
  · intro hn
    have h0 : m.nqn.toNat = 0 := by omega
    unfold geopdes_mesh.area geopdes_mesh_base.area
    have h1 : m.togeopdes_mesh_base.nqn.toNat = 0 := h0
    rw [h1]
    rfl
  · intro v hv
    have hP : v.nonnegOrNaN := by
      unfold geopdes_mesh.area geopdes_mesh_base.area at hv
      have h0 : Double.nonnegOrNaN (0 : Double) :=
        Or.inl (show (0 : ℚ) ≤ 0 from le_refl 0)
      refine foldlM_option_invariant Double.nonnegOrNaN _ _ ?_ _ h0 v hv
      intro q _ a b ha hb
      cases hj : m.jacdet (q : Int) e with
      | none => rw [hj] at hb; simp at hb
      | some j =>
        cases hw : m.weights (q : Int) e with
        | none => rw [hj, hw] at hb; simp at hb
        | some w =>
          rw [hj, hw] at hb
          simp only [Option.bind_eq_bind, Option.some_bind] at hb
          have hb1 : a + Double.abs (j * w) = b := Option.some.inj hb
          rw [← hb1]
          exact Double.add_nonnegOrNaN _ _ ha (Double.abs_nonnegOrNaN _)
    refine ⟨hP, ?_⟩
    rcases hP with h | h
    · cases v with
      | val x => exact not_lt.mpr h
      | posInf => exact fun h1 => h1
      | negInf => exact absurd h (fun h1 => h1)
      | NaN => exact fun h1 => h1
    · rw [h]; exact fun h1 => h1
  · intro J Wt hJ hW
    have hex : ∃ v, m.area e = some v := by
      unfold geopdes_mesh.area geopdes_mesh_base.area
      apply foldlM_option_isSome
      intro q hq a
      have hq1 : q < m.nqn.toNat := List.mem_range.mp hq
      refine ⟨a + Double.abs (Double.val (J q) * Double.val (Wt q)), ?_⟩
      simp only [hJ q hq1, hW q hq1, Option.bind_eq_bind, Option.some_bind]
      rfl
    obtain ⟨v, hv⟩ := hex
    refine ⟨v, hv, ?_⟩
    have hP : ∃ x : ℚ, v = Double.val x ∧ 0 ≤ x := by
      unfold geopdes_mesh.area geopdes_mesh_base.area at hv
      refine foldlM_option_invariant (fun d => ∃ x : ℚ, d = Double.val x ∧ 0 ≤ x) _ _ ?_ _
        ⟨0, rfl, le_refl 0⟩ v hv
      intro q hq a b ⟨x, hax, hx⟩ hb
      have hq1 : q < m.nqn.toNat := List.mem_range.mp hq
      rw [hJ q hq1, hW q hq1, hax] at hb
      simp only [Option.bind_eq_bind, Option.some_bind] at hb
      have hb1 : Double.val x + Double.abs (Double.val (J q) * Double.val (Wt q)) = b :=
        Option.some.inj hb
      refine ⟨x + |J q * Wt q|, ?_, add_nonneg hx (abs_nonneg _)⟩
      rw [← hb1]; rfl
    obtain ⟨x, hvx, hx⟩ := hP
    rw [hvx]
    exact hx

/-- Witness for C18: with determinants `-1`, `2` and weights `3`, `-4` the
area is `|-3| + |-8| = 11`. -/
theorem area_abs_product_sample :
    signedGeometry.area 0 = some (Double.val 11) ∧ signedGeometry.volume 0 = some (Double.val 11) ∧
    ∃ v, signedGeometry.area 0 = some v ∧ v.nonneg :=
  ⟨by with_unfolding_all decide, by with_unfolding_all decide,
    (area_abs_product signedGeometry 0).2.2.2.2
      (fun q => if q = 0 then -1 else 2) (fun q => if q = 0 then 3 else -4)
      (by with_unfolding_all decide) (by with_unfolding_all decide)⟩

/-- C18 (as stated) fails: with a not-a-number determinant at the single node,
`area` returns not-a-number, which is not `>= 0`; and so it does with
determinant `+Inf` and weight `0`, where no stored entry is not-a-number. -/
theorem area_nan_not_nonneg :
    (∃ m, geopdes_mesh.construct nanMsh = some m ∧
      m.area 0 = some Double.NaN ∧ ¬ ∃ v, m.area 0 = some v ∧ v.nonneg) ∧
    (∃ m, geopdes_mesh.construct infZeroMsh = some m ∧
      m.jacdet 0 0 = some Double.posInf ∧ m.weights 0 0 = some (Double.val 0) ∧
      m.area 0 = some Double.NaN ∧ ¬ ∃ v, m.area 0 = some v ∧ v.nonneg) :=
  ⟨⟨_, rfl, by with_unfolding_all decide, by
      intro ⟨v, hv, hn⟩
      have h : (geopdes_mesh.construct nanMsh).bind (fun m => m.area 0) = some Double.NaN := by
        with_unfolding_all decide
      have h2 : some v = some Double.NaN := hv.symm.trans h
      cases Option.some.inj h2
      exact hn⟩,
    ⟨_, rfl, by with_unfolding_all decide, by with_unfolding_all decide,
      by with_unfolding_all decide, by
      intro ⟨v, hv, hn⟩
      have h : (geopdes_mesh.construct infZeroMsh).bind (fun m => m.area 0) =
          some Double.NaN := by
        with_unfolding_all decide
      have h2 : some v = some Double.NaN := hv.symm.trans h
      cases Option.some.inj h2
      exact hn⟩⟩

/-- C19: the two curl overloads agree on scalar curls.  The three-index
`shape_function_curls (node, local, element)` reads the curl buffer at offset
`node + nqn * (local + nsh_max * element)`; for a space with `ncomp = 1` the
four-index overload at component `0` returns the same result: the same buffer
entry when curls are there, `octave_NaN` from both when they are not. -/
theorem curls_agree_scalar (s : geopdes_space) (h1 : s.ncomp = 1)
    (node loc element : Int) :
    s.shape_function_curls 0 node loc element = s.shape_function_curls_3 node loc element ∧
    (∀ rep, s.shape_function_curls_rep = some rep →
      s.shape_function_curls_3 node loc element =
          readAt rep (node + s.nqn * (loc + s.nsh_max * element)) ∧
      s.shape_function_curls 0 node loc element =
          readAt rep (node + s.nqn * (loc + s.nsh_max * element))) ∧
    (s.shape_function_curls_rep = none →
      s.shape_function_curls_3 node loc element = some octave_NaN ∧
      s.shape_function_curls 0 node loc element = some octave_NaN) := by
  have hoff : (0 : Int) + s.ncomp * (node + s.nqn * (loc + s.nsh_max * element)) =
      node + s.nqn * (loc + s.nsh_max * element) := by
    rw [h1]; ring
  have hagree : s.shape_function_curls 0 node loc element =
      s.shape_function_curls_3 node loc element := by
    unfold geopdes_space.shape_function_curls geopdes_space.shape_function_curls_3
    rw [hoff]
  refine ⟨hagree, ?_, ?_⟩
  · intro rep hrep
    have h3 : s.shape_function_curls_3 node loc element =
        readAt rep (node + s.nqn * (loc + s.nsh_max * element)) := by
      simp [geopdes_space.shape_function_curls_3, hrep]
    exact ⟨h3, hagree.trans h3⟩
  · intro hrep
    have h3 : s.shape_function_curls_3 node loc element = some octave_NaN := by
      simp [geopdes_space.shape_function_curls_3, hrep]
    exact ⟨h3, hagree.trans h3⟩

/-- Witness for C19: in the scalar sample space both overloads return the
curl entry at offset `1 + 2 * (0 + 2 * 1) = 5`. -/
theorem curls_agree_scalar_sample :
    scalarSpace.shape_function_curls_3 1 0 1 = some (Double.val 55) ∧
    scalarSpace.shape_function_curls 0 1 0 1 = scalarSpace.shape_function_curls_3 1 0 1 :=
  ⟨by with_unfolding_all decide, (curls_agree_scalar scalarSpace rfl 1 0 1).1⟩

end Geopdes
